import Mathlib

/-!
Verification of the ReinventCommunity notebooks.

The repository consists of Jupyter notebooks that build nested Python
dictionaries, write them out with `json.dump(configuration, f, indent=4,
sort_keys=True)`, shell out to the external REINVENT executable, and slice its
captured stdout with `re.findall(r'INFO.*?local', ..., re.DOTALL)`.

This file shallowly embeds, from the notebook sources:
 * the Python dictionary / JSON value model (`JValue`) together with the exact
   text produced by `json.dump` with `indent=4` and `sort_keys=True`
   (`pyJsonDump`), and a parser for the emitted grammar (`parseJson`)
   modelling `json.load` on the files the notebooks write;
 * the concrete configuration dictionaries each notebook builds, via Python
   dictionary-assignment semantics (`dictSet`, `setNested`);
 * the stdout post-processing (`findallIL`, `pySelect`, `removeLastLine`);
 * the `try: os.mkdir(...) except FileExistsError: pass` cell (`mkdirGuarded`)
   over a standard model of `os.mkdir`;
 * the statement-level structure of every notebook (`PyStmt`), for the claims
   about exception handlers and subprocess invocations.
-/

/-! ### JSON values: the Python dictionaries the notebooks build

Strings and object keys are kept as `List Char` (Python `str`).  Python float
literals appearing in the notebooks (`0.4`, `0.0001`, `7.0`, `2.0`, `0.25`)
are represented exactly as decimals `jfloat m e` denoting `m / 10^e` with `e`
digits after the decimal point, matching `repr` of those floats. -/

inductive JValue where
  | jnull : JValue
  | jbool (b : Bool) : JValue
  | jint (n : Int) : JValue
  | jfloat (m : Int) (e : Nat) : JValue
  | jstr (s : List Char) : JValue
  | jarr (elts : List JValue) : JValue
  | jobj (fields : List (List Char × JValue)) : JValue

abbrev JField := List Char × JValue

/-- Opening curly brace character (written via its code point). -/
def lbr : Char := Char.ofNat 123

/-- Closing curly brace character (written via its code point). -/
def rbr : Char := Char.ofNat 125

/-- Build a JSON string from a string literal. -/
def js (s : String) : JValue := .jstr s.toList

/-- Build an object field from a string key. -/
def fld (k : String) (v : JValue) : JField := (k.toList, v)

/-! ### Python dictionary assignment

`d[k] = v` replaces the value in place when the key is present (keeping its
position, as Python dictionaries do) and appends the pair otherwise. -/

def dictSet : List JField → List Char → JValue → List JField
  | [], k, v => [(k, v)]
  | f :: fs, k, v => if f.1 = k then (k, v) :: fs else f :: dictSet fs k v

def dictGet : List JField → List Char → Option JValue
  | [], _ => none
  | f :: fs, k => if f.1 = k then some f.2 else dictGet fs k

/-- `d[k1][k2] = v` for a dictionary whose entry at `k1` is itself a
dictionary; `none` when it is not (Python would raise). -/
def setNested (fs : List JField) (k₁ k₂ : List Char) (v : JValue) :
    Option (List JField) :=
  match dictGet fs k₁ with
  | some (.jobj inner) => some (dictSet fs k₁ (.jobj (dictSet inner k₂ v)))
  | _ => none

/-- Lookup through a nested dictionary entry. -/
def dictGet2 (fs : List JField) (k₁ k₂ : List Char) : Option JValue :=
  match dictGet fs k₁ with
  | some (.jobj inner) => dictGet inner k₂
  | _ => none

/-! ### Key ordering and `sort_keys=True`

Python compares `str` keys by code points; `sorted` (and hence
`json.dump(..., sort_keys=True)`) is stable.  A stable insertion sort keyed by
the same order reproduces it. -/

def keyLe : List Char → List Char → Bool
  | [], _ => true
  | _ :: _, [] => false
  | a :: as, b :: bs =>
    if a.toNat < b.toNat then true
    else if b.toNat < a.toNat then false
    else keyLe as bs

def insField (f : JField) : List JField → List JField
  | [] => [f]
  | g :: gs => if keyLe f.1 g.1 then f :: g :: gs else g :: insField f gs

def sortFields : List JField → List JField
  | [] => []
  | f :: fs => insField f (sortFields fs)

/-! ### The characters emitted by `json.dump(..., indent=4, sort_keys=True)`

`pad lvl` is the indentation prefix at nesting level `lvl`; numbers print as
Python `repr` of ints and (decimal) floats; strings escape `"` and `\`
(sufficient for the printable-ASCII strings the notebooks contain, see `wfJ`);
nonempty containers open with a newline, indent members by four more spaces,
separate them with `",\n"`, and close on a fresh line at the outer level;
object keys are followed by `": "`.  Key sorting is factored into `canon`:
`pyJsonDump v = serVal 0 (canon v)` emits exactly what `json.dump` emits. -/

def pad (n : Nat) : List Char := List.replicate n ' '

def digitChar (d : Nat) : Char := Char.ofNat (48 + d)

def natChars (n : Nat) : List Char :=
  if n = 0 then ['0'] else ((Nat.digits 10 n).reverse).map digitChar

def intChars (i : Int) : List Char :=
  if i < 0 then '-' :: natChars i.natAbs else natChars i.natAbs

def padZeros (k : Nat) (ds : List Char) : List Char :=
  List.replicate (k - ds.length) '0' ++ ds

/-- The characters of the decimal float `m / 10^e`: sign, integer digits,
`'.'`, then exactly `e` fractional digits (as Python `repr` prints the float
literals appearing in the notebooks). -/
def floatChars (m : Int) (e : Nat) : List Char :=
  let ds := padZeros (e + 1) (natChars m.natAbs)
  (if m < 0 then ['-'] else []) ++
    (ds.take (ds.length - e) ++ '.' :: ds.drop (ds.length - e))

def escChar (c : Char) : List Char :=
  if c = '"' ∨ c = '\\' then ['\\', c] else [c]

def escChars : List Char → List Char
  | [] => []
  | c :: cs => escChar c ++ escChars cs

mutual

def serVal (lvl : Nat) : JValue → List Char
  | .jnull => ['n', 'u', 'l', 'l']
  | .jbool true => ['t', 'r', 'u', 'e']
  | .jbool false => ['f', 'a', 'l', 's', 'e']
  | .jint n => intChars n
  | .jfloat m e => floatChars m e
  | .jstr s => '"' :: (escChars s ++ ['"'])
  | .jarr [] => ['[', ']']
  | .jarr (x :: xs) => '[' :: '\n' :: serItemsA lvl x xs
  | .jobj [] => [lbr, rbr]
  | .jobj ((k, v) :: fs) => lbr :: '\n' :: serFieldsA lvl k v fs
termination_by v => sizeOf v

def serItemsA (lvl : Nat) (x : JValue) (xs : List JValue) : List Char :=
  pad (lvl + 4) ++ (serVal (lvl + 4) x ++
    (match xs with
     | [] => '\n' :: (pad lvl ++ [']'])
     | y :: ys => ',' :: '\n' :: serItemsA lvl y ys))
termination_by 1 + sizeOf x + sizeOf xs

def serFieldsA (lvl : Nat) (k : List Char) (v : JValue) (fs : List JField) :
    List Char :=
  pad (lvl + 4) ++ ('"' :: (escChars k ++ ['"'])) ++ ':' :: ' ' ::
    (serVal (lvl + 4) v ++
      (match fs with
       | [] => '\n' :: (pad lvl ++ [rbr])
       | (k₂, v₂) :: gs => ',' :: '\n' :: serFieldsA lvl k₂ v₂ gs))
termination_by 1 + sizeOf v + sizeOf fs

end

/-! `canon` applies the `sort_keys=True` reordering recursively (and changes
nothing else), so that serializing `canon v` without further sorting emits
exactly the bytes `json.dump(v, f, indent=4, sort_keys=True)` writes. -/

mutual

def canon : JValue → JValue
  | .jarr l => .jarr (canonItems l)
  | .jobj fs => .jobj (sortFields (canonFields fs))
  | v => v

def canonItems : List JValue → List JValue
  | [] => []
  | v :: vs => canon v :: canonItems vs

def canonFields : List JField → List JField
  | [] => []
  | (k, v) :: fs => (k, canon v) :: canonFields fs

end

/-- The full character stream `json.dump(v, f, indent=4, sort_keys=True)`
writes to the configuration file. -/
def pyJsonDump (v : JValue) : List Char := serVal 0 (canon v)

/-! ### Well-formedness

`wfStr`: printable ASCII, so that escaping `"` and `\` is exactly what
`json.dump` (with its default `ensure_ascii=True`) does.  `wfJ` additionally
requires floats to carry at least one fractional digit, as Python float
`repr` always prints one.  Every string in the notebooks satisfies this. -/

def wfStr (s : List Char) : Bool :=
  s.all (fun c => 32 ≤ c.toNat && c.toNat ≤ 126)

mutual

def wfJ : JValue → Bool
  | .jnull => true
  | .jbool _ => true
  | .jint _ => true
  | .jfloat _ e => e != 0
  | .jstr s => wfStr s
  | .jarr l => wfItems l
  | .jobj fs => wfFieldList fs

def wfItems : List JValue → Bool
  | [] => true
  | v :: vs => wfJ v && wfItems vs

def wfFieldList : List JField → Bool
  | [] => true
  | (k, v) :: fs => wfStr k && wfJ v && wfFieldList fs

end

/-! ### Node counts, used as parser fuel bounds -/

mutual

def nodes : JValue → Nat
  | .jnull => 1
  | .jbool _ => 1
  | .jint _ => 1
  | .jfloat _ _ => 1
  | .jstr _ => 1
  | .jarr l => 1 + nodesList l
  | .jobj fs => 1 + nodesFields fs

def nodesList : List JValue → Nat
  | [] => 0
  | v :: vs => nodes v + 1 + nodesList vs

def nodesFields : List JField → Nat
  | [] => 0
  | (_, v) :: fs => nodes v + 1 + nodesFields fs

end

/-! ### The parser, modelling `json.load` on the grammar `json.dump` emits

Recursion is on explicit fuel; every recursive call decreases it by one, and
`nodes` bounds the fuel any written configuration needs. -/

def isWsChar (c : Char) : Bool :=
  c == ' ' || c == '\n' || c == '\t' || c == '\r'

def skipWs : List Char → List Char
  | [] => []
  | c :: cs => if isWsChar c then skipWs cs else c :: cs

def digitSpan : List Char → List Char × List Char
  | [] => ([], [])
  | c :: cs =>
    if c.isDigit then
      let p := digitSpan cs
      (c :: p.1, p.2)
    else ([], c :: cs)

def digitsVal (ds : List Char) : Nat :=
  ds.foldl (fun a c => 10 * a + (c.toNat - 48)) 0

def parseStrBody : List Char → Option (List Char × List Char)
  | [] => none
  | c :: cs =>
    if c = '"' then some ([], cs)
    else if c = '\\' then
      match cs with
      | [] => none
      | d :: cs₂ =>
        if d = '"' ∨ d = '\\' then
          (parseStrBody cs₂).map (fun p => (d :: p.1, p.2))
        else none
    else (parseStrBody cs).map (fun p => (c :: p.1, p.2))

def condNeg (b : Bool) (n : Nat) : Int :=
  if b then -(n : Int) else (n : Int)

def parseNumber (s : List Char) : Option (JValue × List Char) :=
  let sgn : Bool × List Char :=
    match s with
    | c :: r => if c = '-' then (true, r) else (false, c :: r)
    | [] => (false, [])
  let ds := digitSpan sgn.2
  if ds.1 = [] then none
  else
    match ds.2 with
    | c :: r₂ =>
      if c = '.' then
        let fs := digitSpan r₂
        if fs.1 = [] then none
        else some (.jfloat (condNeg sgn.1 (digitsVal (ds.1 ++ fs.1)))
          fs.1.length, fs.2)
      else some (.jint (condNeg sgn.1 (digitsVal ds.1)), c :: r₂)
    | [] => some (.jint (condNeg sgn.1 (digitsVal ds.1)), [])

mutual

def parseValF : Nat → List Char → Option (JValue × List Char)
  | 0, _ => none
  | fuel + 1, s =>
    match skipWs s with
    | [] => none
    | c :: r =>
      if c = '[' then
        match skipWs r with
        | ']' :: r₂ => some (.jarr [], r₂)
        | _ =>
          match parseItemsF fuel r with
          | some (vs, r₂) => some (.jarr vs, r₂)
          | none => none
      else if c = lbr then
        match skipWs r with
        | [] => none
        | c₂ :: r₂ =>
          if c₂ = rbr then some (.jobj [], r₂)
          else
            match parseFieldsF fuel r with
            | some (fs, r₃) => some (.jobj fs, r₃)
            | none => none
      else if c = '"' then
        match parseStrBody r with
        | some (cs, r₂) => some (.jstr cs, r₂)
        | none => none
      else if c = 'n' then
        match r with
        | 'u' :: 'l' :: 'l' :: r₂ => some (.jnull, r₂)
        | _ => none
      else if c = 't' then
        match r with
        | 'r' :: 'u' :: 'e' :: r₂ => some (.jbool true, r₂)
        | _ => none
      else if c = 'f' then
        match r with
        | 'a' :: 'l' :: 's' :: 'e' :: r₂ => some (.jbool false, r₂)
        | _ => none
      else parseNumber (c :: r)

def parseItemsF : Nat → List Char → Option (List JValue × List Char)
  | 0, _ => none
  | fuel + 1, s =>
    match parseValF fuel s with
    | none => none
    | some (v, r) =>
      match skipWs r with
      | ',' :: r₂ =>
        match parseItemsF fuel r₂ with
        | some (vs, r₃) => some (v :: vs, r₃)
        | none => none
      | ']' :: r₂ => some ([v], r₂)
      | _ => none

def parseFieldsF : Nat → List Char → Option (List JField × List Char)
  | 0, _ => none
  | fuel + 1, s =>
    match skipWs s with
    | [] => none
    | c :: r =>
      if c = '"' then
        match parseStrBody r with
        | none => none
        | some (k, r₁) =>
          match skipWs r₁ with
          | ':' :: r₂ =>
            (match parseValF fuel r₂ with
             | none => none
             | some (v, r₃) =>
               match skipWs r₃ with
               | ',' :: r₄ =>
                 (match parseFieldsF fuel r₄ with
                  | some (fs, r₅) => some ((k, v) :: fs, r₅)
                  | none => none)
               | c₅ :: r₄ => if c₅ = rbr then some ([(k, v)], r₄) else none
               | [] => none)
          | _ => none
      else none

end

/-- `json.load` of a complete document written by the notebooks. -/
def parseJson (s : List Char) : Option JValue :=
  match parseValF (s.length + 1) s with
  | some (v, r) => if skipWs r = [] then some v else none
  | none => none

/-! ### Environment values used by the notebooks

`os.path.expanduser` is modelled by keeping the `~/...` literal; `os.getcwd()`
(the fallback for `ipynb_path`) by the repository's notebook folder; and
`os.path.join` by `/`-concatenation, which is what it does on these
arguments. -/

def pathJoin (a b : String) : String := a ++ "/" ++ b

def ipynb_path : String := "~/Desktop/ReinventCommunity/notebooks"

def reinvent_prior_path : String :=
  pathJoin ipynb_path "models/random.prior.new"

/-- A JSON array of strings. -/
def jss (l : List String) : JValue := .jarr (l.map js)

/-- The `custom_alerts` SMARTS list.  The DRD2 use-case, Exploration-demo and
Selectivity-demo notebooks each contain this identical literal list. -/
def customAlertsSmarts : List String :=
  ["[*;r8]",
   "[*;r9]",
   "[*;r10]",
   "[*;r11]",
   "[*;r12]",
   "[*;r13]",
   "[*;r14]",
   "[*;r15]",
   "[*;r16]",
   "[*;r17]",
   "[#8][#8]",
   "[#6;+]",
   "[#16][#16]",
   "[#7;!n][S;!$(S(=O)=O)]",
   "[#7;!n][#7;!n]",
   "C#C",
   "C(=[O,S])[O,S]",
   "[#7;!n][C;!$(C(=[O,N])[N,O])][#16;!s]",
   "[#7;!n][C;!$(C(=[O,N])[N,O])][#7;!n]",
   "[#7;!n][C;!$(C(=[O,N])[N,O])][#8;!o]",
   "[#8;!o][C;!$(C(=[O,N])[N,O])][#16;!s]",
   "[#8;!o][C;!$(C(=[O,N])[N,O])][#8;!o]",
   "[#16;!s][C;!$(C(=[O,N])[N,O])][#16;!s]"]

/-! ### DRD2 use-case notebook: the configuration dictionary -/

def drd2_output_dir : String := "~/Desktop/REINVENT_Use-Case-DRD2_demo"

def drd2_component_DRD2_prediction : JValue := .jobj
  [fld "component_type" (js "predictive_property"),
   fld "name" (js "DRD2_pred_activity"),
   fld "weight" (.jint 7),
   fld "specific_parameters" (.jobj
     [fld "model_path" (js (pathJoin ipynb_path "models/drd2.pkl")),
      fld "scikit" (js "classification"),
      fld "descriptor_type" (js "ecfp_counts"),
      fld "size" (.jint 2048),
      fld "radius" (.jint 3),
      fld "use_counts" (.jbool true),
      fld "use_features" (.jbool true),
      fld "transformation" (.jobj
        [fld "transformation_type" (js "no_transformation")])])]

def drd2_diversity_filter : JValue := .jobj
  [fld "name" (js "IdenticalMurckoScaffold"),
   fld "nbmax" (.jint 25),
   fld "minscore" (.jfloat 4 1),
   fld "minsimilarity" (.jfloat 4 1)]

def drd2_inception : JValue := .jobj
  [fld "memory_size" (.jint 20),
   fld "sample_size" (.jint 5),
   fld "smiles" (jss
     ["OCCN1CCN(CCCN2c3ccccc3Sc3ccc(Cl)cc32)CC1",
      "C=CCN1CCC2c3cccc(OC)c3CCC21",
      "CCCN(Cc1ccc(OC)cc1)C1CCc2c(cccc2OC)C1",
      "N#Cc1ccc2[nH]c(CN3CCN(c4ccc(Cl)c(Cl)c4)CC3)cc2c1",
      "O=C(CCCN1CCN(c2ncccn2)CC1)c1ccc(F)cc1",
      "Cc1ccc2c(c1)C(N1CCN(C)CC1)=Nc1cccnc1N2",
      "COc1ccc(-c2cccc(CN3CCN(c4ncccn4)CC3)c2)cc1",
      "Oc1[nH]cc2ccc(OCCCCN3CCN(c4cccc5cccc(F)c45)CC3)c(Cl)c12",
      "CCCN1CCN(c2cccc(OC)c2)CC1",
      "O=C(Nc1cccc(SC(F)(F)F)c1)N1CCC(N2CCC(n3c(O)nc4c(F)cccc43)CC2)CC1",
      "CC1CCN(C2=Cc3cc(Cl)ccc3Cc3ccccc32)CC1",
      "CCCN1CCOC2Cc3c(O)cccc3CC21",
      "c1ccc(N2CCN(C3CCC(Nc4ncccn4)CC3)CC2)cc1",
      "O=S(=O)(NC1CCC(N2CCC(c3ccccc3OCC(F)(F)F)CC2)CC1)c1ccc(OC(F)F)cc1",
      "COc1ccccc1N1CCN(CCCCc2cc(-c3ccccc3)no2)CC1",
      "c1ccc(CCC2CCN(Cc3c[nH]c4ncccc34)CC2)cc1",
      "CC1CN(c2cccc3cc(F)ccc23)CCN1CCC1OCCc2c1sc(C(N)=O)c2Cl",
      "COc1ccccc1N1CCCN(CCCCNC(=O)c2cc3ccccc3o2)CC1",
      "O=C1CCc2ccc(OCCCCN3CCN(c4ccccc4C(F)(F)F)CC3)cc2N1",
      "CCCCCCCCCC(=O)N1c2ccc(Cl)cc2N=C(N2CCN(C)CC2)c2ccccc21",
      "O=C1N(CCN2CCC(C(F)(F)F)CC2)CCN1c1cccc(Cl)c1",
      "CN1CCc2cccc3c2C1Cc1cccc(-c2c(OS(=O)(=O)C(F)(F)F)cccc2OS(=O)(=O)C(F)(F)F)c1-3",
      "Cc1nn(C2CCN(Cc3cccc(C#N)c3)CC2)cc1-c1ccccc1",
      "COc1ccc(-c2cc3c(O)n(CCN4CCN(c5ccccc5Cl)CC4)c(O)nc-3n2)cc1",
      "OC1(c2cccc(Cl)c2Cl)CCN(Cc2c[nH]c3ccccc23)CC1",
      "FC(F)(F)c1ccc2c(c1)N(Cc1ccc(CNc3cccc(Oc4ccccc4)c3)cc1)c1ccccc1S2",
      "CCCSc1ccccc1N1CCN(CCCOc2ccc(-c3nc4ccccc4[nH]3)cc2)CC1",
      "O=S(=O)(NCCCCN1CCN(c2cccc(Cl)c2Cl)CC1)c1cc2ccccc2cn1",
      "COc1ccc(CN2CCN(CC(=O)N3c4ccccc4CC3C)CC2)cc1",
      "CC1Cc2ccccc2N1C(=O)CC1CCN(Cc2ccc(Cl)cc2)CC1",
      "CC(C)c1ccccc1N1CCN(CCCCCC(=O)NCc2ccccc2)CC1",
      "Cc1ncoc1-c1nnc(SCCCN2CCc3cc4nc(C5CC5)oc4cc3CC2)n1C",
      "O=C1CC(c2ccccc2)c2cccc(CCN3CCN(c4nsc5ccccc45)CC3)c2N1",
      "O=C1NCN(c2ccccc2)C12CCN(CCCOc1ccc(F)cc1)CC2",
      "CCON=C(CCN1CCN(c2nccs2)CC1)c1ccccc1",
      "Cc1ccc2c(-c3nnc(SCCCN4CCc5cc6nc(-c7cc(C)nn7C)oc6cc5CC4)n3C)cccc2n1",
      "CCCN(CCCCNC(=O)c1ccc(-c2ccccc2)cc1)C1Cc2cccn3ncc(c23)C1",
      "Cc1ccc(OCCNCCCOc2ccccc2)cc1"])]

def drd2_component_rotatable_bonds : JValue := .jobj
  [fld "component_type" (js "num_rotatable_bonds"),
   fld "name" (js "Number of rotatable bonds"),
   fld "weight" (.jint 1),
   fld "specific_parameters" (.jobj
     [fld "transformation" (.jobj
       [fld "transformation_type" (js "step"),
        fld "high" (.jint 9),
        fld "low" (.jint 0)])])]

def drd2_component_num_hbd : JValue := .jobj
  [fld "component_type" (js "num_hbd_lipinski"),
   fld "name" (js "HB-donors (Lipinski)"),
   fld "weight" (.jint 1),
   fld "specific_parameters" (.jobj
     [fld "transformation" (.jobj
       [fld "transformation_type" (js "step"),
        fld "high" (.jint 6),
        fld "low" (.jint 0)])])]

def drd2_component_custom_alerts : JValue := .jobj
  [fld "component_type" (js "custom_alerts"),
   fld "name" (js "Custom_alerts"),
   fld "weight" (.jint 1),
   fld "specific_parameters" (.jobj
     [fld "smiles" (jss customAlertsSmarts)])]

def drd2_scoring_function : JValue := .jobj
  [fld "name" (js "custom_sum"),
   fld "parallel" (.jbool true),
   fld "parameters" (.jarr
     [drd2_component_DRD2_prediction,
      drd2_component_num_hbd,
      drd2_component_rotatable_bonds,
      drd2_component_custom_alerts])]

/-- The initial `configuration` dictionary of the DRD2 notebook. -/
def drd2_configuration_init : List JField :=
  [fld "version" (.jint 3),
   fld "run_type" (js "reinforcement_learning"),
   fld "parameters" (.jobj [fld "scoring_function" drd2_scoring_function])]

def drd2_reinforcement_learning : JValue := .jobj
  [fld "prior" (js reinvent_prior_path),
   fld "agent" (js reinvent_prior_path),
   fld "n_steps" (.jint 300),
   fld "sigma" (.jint 128),
   fld "learning_rate" (.jfloat 1 4),
   fld "batch_size" (.jint 128),
   fld "reset" (.jint 0),
   fld "reset_score_cutoff" (.jfloat 5 1),
   fld "margin_threshold" (.jint 50)]

def drd2_logging : JValue := .jobj
  [fld "sender" (js "http://127.0.0.1"),
   fld "recipient" (js "local"),
   fld "logging_frequency" (.jint 0),
   fld "logging_path" (js (pathJoin drd2_output_dir "progress.log")),
   fld "result_folder" (js (pathJoin drd2_output_dir "results")),
   fld "job_name" (js "Use-case DRD2 Demo"),
   fld "job_id" (js "demo")]

/-- `configuration["parameters"]["diversity_filter"] = diversity_filter`. -/
def drd2_after_dv : Option (List JField) :=
  setNested drd2_configuration_init "parameters".toList
    "diversity_filter".toList drd2_diversity_filter

/-- `configuration["parameters"]["inception"] = inception`. -/
def drd2_after_inception : Option (List JField) :=
  drd2_after_dv.bind fun d =>
    setNested d "parameters".toList "inception".toList drd2_inception

/-- `configuration["parameters"]["reinforcement_learning"] = {...}`. -/
def drd2_after_rl : Option (List JField) :=
  drd2_after_inception.bind fun d =>
    setNested d "parameters".toList "reinforcement_learning".toList
      drd2_reinforcement_learning

/-- `configuration["logging"] = {...}`: the completed DRD2 configuration. -/
def drd2_final : Option (List JField) :=
  drd2_after_rl.map fun d => dictSet d "logging".toList drd2_logging

def drd2_configuration : List JField := drd2_final.getD []

/-! ### DockStream notebook (reinforcement learning with docking) -/

def dock_output_dir : String := "~/Desktop/REINVENT_RL_DockStream_demo"

def dock_dockstream_dir : String := "~/Desktop/ProjectData/DockStream"

def dock_dockstream_env : String := "~/miniconda3/envs/DockStream/bin/python"

def dock_docker_path : String := pathJoin dock_dockstream_dir "docker.py"

def dock_docking_configuration_path : String :=
  pathJoin dock_output_dir "Glide_DockStream_Conf.json"

def dock_logging : JValue := .jobj
  [fld "sender" (js "http://0.0.0.1"),
   fld "recipient" (js "local"),
   fld "logging_frequency" (.jint 1),
   fld "logging_path" (js (pathJoin dock_output_dir "progress.log")),
   fld "result_folder" (js (pathJoin dock_output_dir "results")),
   fld "job_name" (js "Reinforcement learning DockStream demo"),
   fld "job_id" (js "demo")]

def dock_diversity_filter : JValue := .jobj
  [fld "name" (js "IdenticalMurckoScaffold"),
   fld "nbmax" (.jint 25),
   fld "minscore" (.jfloat 4 1),
   fld "minsimilarity" (.jfloat 4 1)]

def dock_inception : JValue := .jobj
  [fld "smiles" (.jarr []),
   fld "memory_size" (.jint 100),
   fld "sample_size" (.jint 10)]

def dock_reinforcement_learning : JValue := .jobj
  [fld "prior" (js reinvent_prior_path),
   fld "agent" (js reinvent_prior_path),
   fld "n_steps" (.jint 2),
   fld "sigma" (.jint 128),
   fld "learning_rate" (.jfloat 1 4),
   fld "batch_size" (.jint 32),
   fld "reset" (.jint 0),
   fld "reset_score_cutoff" (.jfloat 5 1),
   fld "margin_threshold" (.jint 50)]

def dock_scoring_function : JValue := .jobj
  [fld "name" (js "custom_product"),
   fld "parallel" (.jbool false),
   fld "parameters" (.jarr
     [.jobj
       [fld "component_type" (js "dockstream"),
        fld "name" (js "Glide LigPrep Docking"),
        fld "weight" (.jint 1),
        fld "specific_parameters" (.jobj
          [fld "transformation" (.jobj
            [fld "transformation_type" (js "reverse_sigmoid"),
             fld "low" (.jint (-11)),
             fld "high" (.jint (-5)),
             fld "k" (.jfloat 25 2)]),
           fld "configuration_path" (js dock_docking_configuration_path),
           fld "docker_script_path" (js dock_docker_path),
           fld "environment_path" (js dock_dockstream_env)])]])]

def dock_configuration_init : List JField :=
  [fld "version" (.jint 3),
   fld "run_type" (js "reinforcement_learning")]

/-- The DockStream notebook's build: logging, empty `parameters`, then the
diversity filter, inception, reinforcement-learning and scoring-function
blocks, in cell order. -/
def dock_final : Option (List JField) :=
  let c₁ := dictSet dock_configuration_init "logging".toList dock_logging
  let c₂ := dictSet c₁ "parameters".toList (.jobj [])
  (setNested c₂ "parameters".toList "diversity_filter".toList
      dock_diversity_filter).bind fun c₃ =>
    (setNested c₃ "parameters".toList "inception".toList dock_inception).bind
      fun c₄ =>
      (setNested c₄ "parameters".toList "reinforcement_learning".toList
          dock_reinforcement_learning).bind fun c₅ =>
        setNested c₅ "parameters".toList "scoring_function".toList
          dock_scoring_function

def dock_configuration : List JField := dock_final.getD []

/-! ### Tanimoto-similarity notebook -/

def tan_output_dir : String := "~/Desktop/REINVENT_RL_Tanimoto_Similarity_demo"

def tan_logging : JValue := .jobj
  [fld "sender" (js "http://0.0.0.1"),
   fld "recipient" (js "local"),
   fld "logging_frequency" (.jint 10),
   fld "logging_path" (js (pathJoin tan_output_dir "progress.log")),
   fld "result_folder" (js (pathJoin tan_output_dir "results")),
   fld "job_name" (js "Reinforcement learning demo"),
   fld "job_id" (js "demo")]

def tan_diversity_filter : JValue := .jobj
  [fld "name" (js "IdenticalMurckoScaffold"),
   fld "nbmax" (.jint 25),
   fld "minscore" (.jfloat 4 1),
   fld "minsimilarity" (.jfloat 4 1)]

def tan_inception : JValue := .jobj
  [fld "smiles" (.jarr []),
   fld "memory_size" (.jint 100),
   fld "sample_size" (.jint 10)]

def tan_reinforcement_learning : JValue := .jobj
  [fld "prior" (js reinvent_prior_path),
   fld "agent" (js reinvent_prior_path),
   fld "n_steps" (.jint 125),
   fld "sigma" (.jint 128),
   fld "learning_rate" (.jfloat 1 4),
   fld "batch_size" (.jint 128),
   fld "reset" (.jint 0),
   fld "reset_score_cutoff" (.jfloat 5 1),
   fld "margin_threshold" (.jint 50)]

def tan_scoring_function : JValue := .jobj
  [fld "name" (js "custom_product"),
   fld "parallel" (.jbool false),
   fld "parameters" (.jarr
     [.jobj
       [fld "component_type" (js "tanimoto_similarity"),
        fld "name" (js "Tanimoto similarity"),
        fld "weight" (.jint 1),
        fld "specific_parameters" (.jobj
          [fld "smiles" (jss
            ["O=S(=O)(c3ccc(n1nc(cc1c2ccc(cc2)C)C(F)(F)F)cc3)N"])])]])]

def tan_configuration_init : List JField :=
  [fld "version" (.jint 3),
   fld "run_type" (js "reinforcement_learning")]

def tan_final : Option (List JField) :=
  let c₁ := dictSet tan_configuration_init "logging".toList tan_logging
  let c₂ := dictSet c₁ "parameters".toList (.jobj [])
  (setNested c₂ "parameters".toList "diversity_filter".toList
      tan_diversity_filter).bind fun c₃ =>
    (setNested c₃ "parameters".toList "inception".toList tan_inception).bind
      fun c₄ =>
      (setNested c₄ "parameters".toList "reinforcement_learning".toList
          tan_reinforcement_learning).bind fun c₅ =>
        setNested c₅ "parameters".toList "scoring_function".toList
          tan_scoring_function

def tan_configuration : List JField := tan_final.getD []

/-! ### Exploration-demo notebook -/

def expl_output_dir : String := "~/Desktop/REINVENT_RL_Exploration_demo"

def expl_logging : JValue := .jobj
  [fld "sender" (js "http://0.0.0.1"),
   fld "recipient" (js "local"),
   fld "logging_frequency" (.jint 10),
   fld "logging_path" (js (pathJoin expl_output_dir "progress.log")),
   fld "result_folder" (js (pathJoin expl_output_dir "results")),
   fld "job_name" (js "Reinforcement learning demo"),
   fld "job_id" (js "demo")]

def expl_diversity_filter : JValue := .jobj
  [fld "name" (js "IdenticalMurckoScaffold"),
   fld "nbmax" (.jint 25),
   fld "minscore" (.jfloat 4 1),
   fld "minsimilarity" (.jfloat 4 1)]

def expl_inception : JValue := .jobj
  [fld "smiles" (.jarr []),
   fld "memory_size" (.jint 100),
   fld "sample_size" (.jint 10)]

def expl_reinforcement_learning : JValue := .jobj
  [fld "prior" (js reinvent_prior_path),
   fld "agent" (js reinvent_prior_path),
   fld "n_steps" (.jint 1000),
   fld "sigma" (.jint 128),
   fld "learning_rate" (.jfloat 1 4),
   fld "batch_size" (.jint 128),
   fld "reset" (.jint 0),
   fld "reset_score_cutoff" (.jfloat 5 1),
   fld "margin_threshold" (.jint 50)]

def expl_component_aurora : JValue := .jobj
  [fld "component_type" (js "predictive_property"),
   fld "name" (js "Aurora kinase"),
   fld "weight" (.jint 6),
   fld "specific_parameters" (.jobj
     [fld "model_path" (js (pathJoin ipynb_path "models/Aurora_model.pkl")),
      fld "transformation" (.jobj
        [fld "transformation_type" (js "sigmoid"),
         fld "high" (.jint 9),
         fld "low" (.jint 4),
         fld "k" (.jfloat 25 2)]),
      fld "scikit" (js "regression"),
      fld "descriptor_type" (js "ecfp_counts"),
      fld "size" (.jint 2048),
      fld "radius" (.jint 3),
      fld "use_counts" (.jbool true),
      fld "use_features" (.jbool true)])]

def expl_component_qed : JValue := .jobj
  [fld "component_type" (js "qed_score"),
   fld "name" (js "QED"),
   fld "weight" (.jint 2)]

def expl_component_custom_alerts : JValue := .jobj
  [fld "component_type" (js "custom_alerts"),
   fld "name" (js "Custom alerts"),
   fld "weight" (.jint 1),
   fld "specific_parameters" (.jobj
     [fld "smiles" (jss customAlertsSmarts)])]

def expl_scoring_function : JValue := .jobj
  [fld "name" (js "custom_product"),
   fld "parallel" (.jbool false),
   fld "parameters" (.jarr
     [expl_component_aurora, expl_component_qed, expl_component_custom_alerts])]

def expl_configuration_init : List JField :=
  [fld "version" (.jint 3),
   fld "run_type" (js "reinforcement_learning")]

def expl_final : Option (List JField) :=
  let c₁ := dictSet expl_configuration_init "logging".toList expl_logging
  let c₂ := dictSet c₁ "parameters".toList (.jobj [])
  (setNested c₂ "parameters".toList "diversity_filter".toList
      expl_diversity_filter).bind fun c₃ =>
    (setNested c₃ "parameters".toList "inception".toList expl_inception).bind
      fun c₄ =>
      (setNested c₄ "parameters".toList "reinforcement_learning".toList
          expl_reinforcement_learning).bind fun c₅ =>
        setNested c₅ "parameters".toList "scoring_function".toList
          expl_scoring_function

def expl_configuration : List JField := expl_final.getD []

/-! ### Selectivity-demo notebook -/

def selv_output_dir : String := "~/Desktop/REINVENT_RL_Selectivity_demo"

def selv_logging : JValue := .jobj
  [fld "sender" (js "http://0.0.0.1"),
   fld "recipient" (js "local"),
   fld "logging_frequency" (.jint 10),
   fld "logging_path" (js (pathJoin selv_output_dir "progress.log")),
   fld "result_folder" (js (pathJoin selv_output_dir "results")),
   fld "job_name" (js "Reinforcement learning demo"),
   fld "job_id" (js "demo")]

def selv_diversity_filter : JValue := .jobj
  [fld "name" (js "IdenticalMurckoScaffold"),
   fld "nbmax" (.jint 25),
   fld "minscore" (.jfloat 4 1),
   fld "minsimilarity" (.jfloat 4 1)]

def selv_inception : JValue := .jobj
  [fld "smiles" (.jarr []),
   fld "memory_size" (.jint 100),
   fld "sample_size" (.jint 10)]

def selv_reinforcement_learning : JValue := .jobj
  [fld "prior" (js reinvent_prior_path),
   fld "agent" (js reinvent_prior_path),
   fld "n_steps" (.jint 1000),
   fld "sigma" (.jint 128),
   fld "learning_rate" (.jfloat 1 4),
   fld "batch_size" (.jint 128),
   fld "reset" (.jint 0),
   fld "reset_score_cutoff" (.jfloat 5 1),
   fld "margin_threshold" (.jint 50)]

def selv_component_aurora : JValue := .jobj
  [fld "component_type" (js "predictive_property"),
   fld "name" (js "Aurora kinase"),
   fld "weight" (.jint 6),
   fld "specific_parameters" (.jobj
     [fld "model_path" (js (pathJoin ipynb_path "models/Aurora_model.pkl")),
      fld "transformation" (.jobj
        [fld "transformation_type" (js "sigmoid"),
         fld "high" (.jint 9),
         fld "low" (.jint 4),
         fld "k" (.jfloat 25 2)]),
      fld "scikit" (js "regression"),
      fld "descriptor_type" (js "ecfp_counts"),
      fld "size" (.jint 2048),
      fld "radius" (.jint 3),
      fld "use_counts" (.jbool true),
      fld "use_features" (.jbool true)])]

def selv_component_matching : JValue := .jobj
  [fld "component_type" (js "matching_substructure"),
   fld "name" (js "Matching substructure"),
   fld "weight" (.jint 1),
   fld "specific_parameters" (.jobj
     [fld "smiles" (jss ["c1ccccc1CC"])])]

def selv_component_custom_alerts : JValue := .jobj
  [fld "component_type" (js "custom_alerts"),
   fld "name" (js "Custom alerts"),
   fld "weight" (.jint 1),
   fld "specific_parameters" (.jobj
     [fld "smiles" (jss customAlertsSmarts)])]

def selv_component_selectivity : JValue := .jobj
  [fld "component_type" (js "selectivity"),
   fld "name" (js "B-RAF selectivity"),
   fld "weight" (.jint 3),
   fld "specific_parameters" (.jobj
     [fld "activity_specific_parameters" (.jobj
       [fld "model_path" (js (pathJoin ipynb_path "models/Aurora_model.pkl")),
        fld "scikit" (js "regression"),
        fld "descriptor_type" (js "ecfp_counts"),
        fld "size" (.jint 2048),
        fld "radius" (.jint 3),
        fld "use_counts" (.jbool true),
        fld "use_features" (.jbool true)]),
      fld "offtarget_specific_parameters" (.jobj
       [fld "model_path" (js (pathJoin ipynb_path "models/B-RAF_model.pkl")),
        fld "scikit" (js "regression"),
        fld "descriptor_type" (js "ecfp_counts"),
        fld "size" (.jint 2048),
        fld "radius" (.jint 3),
        fld "use_counts" (.jbool true),
        fld "use_features" (.jbool true)]),
      fld "delta_transformation_parameters" (.jobj
       [fld "transformation_type" (js "sigmoid"),
        fld "high" (.jint 3),
        fld "k" (.jfloat 25 2),
        fld "low" (.jint 0)])])]

def selv_scoring_function : JValue := .jobj
  [fld "name" (js "custom_product"),
   fld "parallel" (.jbool false),
   fld "parameters" (.jarr
     [selv_component_aurora, selv_component_matching,
      selv_component_custom_alerts, selv_component_selectivity])]

def selv_configuration_init : List JField :=
  [fld "version" (.jint 3),
   fld "run_type" (js "reinforcement_learning")]

def selv_final : Option (List JField) :=
  let c₁ := dictSet selv_configuration_init "logging".toList selv_logging
  let c₂ := dictSet c₁ "parameters".toList (.jobj [])
  (setNested c₂ "parameters".toList "diversity_filter".toList
      selv_diversity_filter).bind fun c₃ =>
    (setNested c₃ "parameters".toList "inception".toList selv_inception).bind
      fun c₄ =>
      (setNested c₄ "parameters".toList "reinforcement_learning".toList
          selv_reinforcement_learning).bind fun c₅ =>
        setNested c₅ "parameters".toList "scoring_function".toList
          selv_scoring_function

def selv_configuration : List JField := selv_final.getD []

/-! ### Sampling-demo notebook (run type `sampling`; not reinforcement
learning) -/

def samp_output_dir : String := "~/Desktop/REINVENT_sampling_demo"

def samp_logging : JValue := .jobj
  [fld "sender" (js "http://127.0.0.1"),
   fld "recipient" (js "local"),
   fld "logging_path" (js (pathJoin samp_output_dir "progress.log")),
   fld "job_name" (js "Scoring mode demo"),
   fld "job_id" (js "demo")]

def samp_parameters : JValue := .jobj
  [fld "model_path" (js reinvent_prior_path),
   fld "output_smiles_path"
     (js (pathJoin (pathJoin samp_output_dir "sampled") "sampled.smi")),
   fld "num_smiles" (.jint 1024),
   fld "batch_size" (.jint 128),
   fld "with_likelihood" (.jbool false)]

def samp_configuration_init : List JField :=
  [fld "version" (.jint 3),
   fld "run_type" (js "sampling")]

def samp_configuration : List JField :=
  let c₁ := dictSet samp_configuration_init "logging".toList samp_logging
  dictSet c₁ "parameters".toList samp_parameters

/-! ### `re.findall(r'INFO.*?local', stdout, re.DOTALL)`

With `re.DOTALL` the pattern is over arbitrary characters (`.` also matches
newlines), so it reads: the literal `INFO`, then a lazily-shortest run of any
characters, then the literal `local`.  `findallIL` performs the scan exactly
as `re.findall` does: left to right, at each position trying `INFO` followed
by the nearest later `local`, and resuming after the end of each match
(non-overlapping, leftmost matches, in order of occurrence). -/

def hasPre : List Char → List Char → Bool
  | [], _ => true
  | _ :: _, [] => false
  | a :: as, b :: bs => a == b && hasPre as bs

def infoPat : List Char := ['I', 'N', 'F', 'O']

def localPat : List Char := ['l', 'o', 'c', 'a', 'l']

/-- Index of the first occurrence of `pat` in `s`, if any. -/
def firstOcc (pat : List Char) : List Char → Option Nat
  | [] => if hasPre pat [] then some 0 else none
  | c :: rest =>
    if hasPre pat (c :: rest) then some 0
    else (firstOcc pat rest).map (· + 1)

/-- The regex can match starting exactly at the head of `s`. -/
def canMatch (s : List Char) : Bool :=
  hasPre infoPat s && (firstOcc localPat (s.drop 4)).isSome

/-- The embedding of `re.findall(r'INFO.*?local', s, re.DOTALL)`. -/
def findallIL : List Char → List (List Char)
  | [] => []
  | c :: rest =>
    if hasPre infoPat (c :: rest) then
      match firstOcc localPat ((c :: rest).drop 4) with
      | some k =>
        (c :: rest).take (9 + k) :: findallIL ((c :: rest).drop (9 + k))
      | none => findallIL rest
    else findallIL rest
termination_by s => s.length
decreasing_by
  all_goals simp [List.length_drop]

/-- `e` is a single lazy match of `INFO.*?local`: it is `INFO`, then a middle
run containing no occurrence of `local` that starts inside it (so the match
extends exactly to the nearest following `local`), then `local`. -/
def IsMatch (e : List Char) : Prop :=
  ∃ mid, e = infoPat ++ (mid ++ localPat) ∧
    ∀ p < mid.length, hasPre localPat ((mid ++ localPat).drop p) = false

/-- Declarative specification of `re.findall` for this pattern: the output is
the ordered list of non-overlapping leftmost matches.  `nomatch` says no
position of the remaining text starts a match; `found` splits the text as a
gap (in which no position starts a match — leftmostness), one match, and the
rest, scanned recursively, so matches are non-overlapping and listed in order
of occurrence. -/
inductive FindallSpec : List Char → List (List Char) → Prop where
  | gaps : ∀ s, (∀ p, canMatch (s.drop p) = false) → FindallSpec s []
  | seg : ∀ g e r ms,
      (∀ p < g.length, canMatch ((g ++ (e ++ r)).drop p) = false) →
      IsMatch e → FindallSpec r ms → FindallSpec (g ++ (e ++ r)) (e :: ms)

/-! ### The display pipeline

`[epoch for idx, epoch in enumerate(list_epochs) if idx in [...]]`, then
`"\n".join(element.splitlines()[:-1])` on each kept block. -/

def pySelectGo (idxs : List Nat) : Nat → List (List Char) → List (List Char)
  | _, [] => []
  | i, e :: rest =>
    if i ∈ idxs then e :: pySelectGo idxs (i + 1) rest
    else pySelectGo idxs (i + 1) rest

def pySelect (idxs : List Nat) (l : List (List Char)) : List (List Char) :=
  pySelectGo idxs 0 l

/-- Split off one line: the characters up to the first line boundary (`\n`,
`\r\n` or `\r`, as `str.splitlines` treats the boundaries occurring in this
data), and the remainder after the boundary. -/
def lineSplit : List Char → List Char × List Char
  | [] => ([], [])
  | '\r' :: '\n' :: r => ([], r)
  | '\r' :: r => ([], r)
  | '\n' :: r => ([], r)
  | c :: r =>
    let p := lineSplit r
    (c :: p.1, p.2)

/-- `str.splitlines`: no trailing empty line for a trailing terminator, and
the empty string has no lines.  One character is consumed per line, so the
input's length is enough fuel. -/
def splitlinesGo : Nat → List Char → List (List Char)
  | 0, _ => []
  | _, [] => []
  | fuel + 1, c :: r =>
    (lineSplit (c :: r)).1 :: splitlinesGo fuel (lineSplit (c :: r)).2

def splitlinesPy (s : List Char) : List (List Char) :=
  splitlinesGo s.length s

/-- `"\n".join(element.splitlines()[:-1])`. -/
def removeLastLine (e : List Char) : List Char :=
  List.intercalate ['\n'] (splitlinesPy e).dropLast

/-- The `data` the notebooks display: the regex matches kept at the given
indices, each with its final line removed. -/
def dataPipeline (idxs : List Nat) (stdout : List Char) : List (List Char) :=
  (pySelect idxs (findallIL stdout)).map removeLastLine

/-- The DRD2 use-case notebook keeps indices 1, 150 and 299. -/
def drd2_displayed (stdout : List Char) : List (List Char) :=
  dataPipeline [1, 150, 299] stdout

/-- The Tanimoto, Exploration and Selectivity notebooks keep 1, 75 and 124. -/
def rlDemo_displayed (stdout : List Char) : List (List Char) :=
  dataPipeline [1, 75, 124] stdout

/-! ### `os.mkdir` under `try: ... except FileExistsError: pass`

The file-system state is the list of existing directories; `os.mkdir` raises
`FileExistsError` when the directory exists, and may fail with any other
`OSError` (modelled by the `failing` oracle, e.g. permission denied) before
creating anything. -/

inductive OSErr where
  | fileExists : OSErr
  | osFailure (code : Nat) : OSErr
  deriving DecidableEq

def osMkdir (dirs : List String) (failing : String → Option Nat)
    (d : String) : Except OSErr (List String) :=
  if d ∈ dirs then .error .fileExists
  else
    match failing d with
    | some c => .error (.osFailure c)
    | none => .ok (d :: dirs)

/-- The notebook cell `try: os.mkdir(output_dir) except FileExistsError:
pass`: a `FileExistsError` is swallowed (leaving the state as it was), any
other error propagates, success records the new directory. -/
def mkdirGuarded (dirs : List String) (failing : String → Option Nat)
    (d : String) : Except OSErr (List String) :=
  match osMkdir dirs failing d with
  | .ok dirs₂ => .ok dirs₂
  | .error .fileExists => .ok dirs
  | .error e => .error e

/-! ### Statement-level structure of the notebooks

Enough of Python's statement syntax to state which operations are guarded by
exception handlers and which subprocesses are spawned.  Expressions the
claims do not inspect are carried as descriptive strings.  In every notebook
of this repository each `try` block guards exactly one simple statement and
each handler is one simple statement, so `try` carries single `PyLeaf`
statements. -/

inductive PyLeaf where
  | assignStmt (target : String) (expr : String) : PyLeaf
  | exprStmt (expr : String) : PyLeaf
  | passStmt : PyLeaf
  | mkdirStmt (dirExpr : String) : PyLeaf
  | jsonDumpStmt (value : String) (pathExpr : String) (indent : Nat)
      (sortKeys : Bool) : PyLeaf
  | fileWriteStmt (pathExpr : String) (content : String) : PyLeaf
  | shellStmt (program : String) (args : List String) : PyLeaf
  | forPrintStmt (iterExpr : String) : PyLeaf

inductive PyStmt where
  | leaf (s : PyLeaf) : PyStmt
  | tryStmt (body : PyLeaf) (excClass : String) (handler : PyLeaf) : PyStmt

def pA (t e : String) : PyStmt := .leaf (.assignStmt t e)

def pDump (v p : String) (ind : Nat) (sk : Bool) : PyStmt :=
  .leaf (.jsonDumpStmt v p ind sk)

def pSh (prog : String) (args : List String) : PyStmt :=
  .leaf (.shellStmt prog args)

def pW (p c : String) : PyStmt := .leaf (.fileWriteStmt p c)

def pFor (e : String) : PyStmt := .leaf (.forPrintStmt e)

/-- All `try` blocks of a program, as (body, exception class, handler). -/
def collectTries (prog : List PyStmt) : List (PyLeaf × String × PyLeaf) :=
  prog.filterMap fun st =>
    match st with
    | .tryStmt b e h => some (b, e, h)
    | _ => none

def leafShell : PyLeaf → List (String × List String)
  | .shellStmt p args => [(p, args)]
  | _ => []

/-- All subprocess invocations of a program, in order (also looking inside
`try` bodies and handlers). -/
def shellCalls (prog : List PyStmt) : List (String × List String) :=
  prog.flatMap fun st =>
    match st with
    | .leaf s => leafShell s
    | .tryStmt b _ h => leafShell b ++ leafShell h

/-- The REINVENT entry-point invocations, with their argument lists. -/
def reinventCalls (prog : List PyStmt) : List (List String) :=
  (shellCalls prog).filterMap fun pc =>
    if pc.1 = "{reinvent_env}/bin/python" then some pc.2 else none

/-- The path argument of the last `json.dump` executed before the first
REINVENT invocation. -/
def lastDumpBefore : Option String → List PyStmt → Option String
  | _, [] => none
  | acc, st :: rest =>
    match st with
    | .leaf (.jsonDumpStmt _ p _ _) => lastDumpBefore (some p) rest
    | .leaf (.shellStmt prog _) =>
      if prog = "{reinvent_env}/bin/python" then acc
      else lastDumpBefore acc rest
    | _ => lastDumpBefore acc rest

/-- A `try` block of the shape
`try: os.mkdir(...) except FileExistsError: pass`. -/
def isMkdirTry (t : PyLeaf × String × PyLeaf) : Bool :=
  match t with
  | (.mkdirStmt _, "FileExistsError", .passStmt) => true
  | _ => false

/-- The `try: ipynb_path except NameError: ipynb_path = os.getcwd()` cell
present in every notebook. -/
def isIpynbPathTry (t : PyLeaf × String × PyLeaf) : Bool :=
  match t with
  | (.exprStmt "ipynb_path", "NameError", .assignStmt "ipynb_path" _) => true
  | _ => false

/-- Every statement guarded by an exception handler is an `os.mkdir` call. -/
def guardsOnlyMkdir (prog : List PyStmt) : Bool :=
  (collectTries prog).all fun t =>
    match t.1 with
    | .mkdirStmt _ => true
    | _ => false

/-! The six notebooks, cell by cell, statement by statement. -/

def drd2_prog : List PyStmt :=
  [pA "reinvent_dir" "os.path.expanduser(Reinvent)",
   pA "reinvent_env" "os.path.expanduser(reinvent.v3.0 env)",
   pA "output_dir" "os.path.expanduser(REINVENT_Use-Case-DRD2_demo)",
   .tryStmt (.exprStmt "ipynb_path") "NameError"
     (.assignStmt "ipynb_path" "os.getcwd()"),
   .tryStmt (.mkdirStmt "output_dir") "FileExistsError" .passStmt,
   pA "component_DRD2_prediction" "dict literal",
   pA "diversity_filter" "dict literal",
   pA "inception" "dict literal",
   pA "component_rotatable_bonds" "dict literal",
   pA "component_num_hbd" "dict literal",
   pA "component_custom_alerts" "dict literal",
   pA "scoring_function" "dict literal",
   pA "configuration" "dict literal",
   pA "configuration[parameters][diversity_filter]" "diversity_filter",
   pA "configuration[parameters][inception]" "inception",
   pA "configuration[parameters][reinforcement_learning]" "dict literal",
   pA "configuration[logging]" "dict literal",
   pA "configuration_JSON_path" "os.path.join(output_dir, DRD2_config.json)",
   pDump "configuration" "configuration_JSON_path" 4 true,
   pSh "{reinvent_env}/bin/python"
     ["{reinvent_dir}/input.py", "{configuration_JSON_path}"],
   pW "os.path.join(output_dir, run.err)" "captured_err_stream.stdout",
   pA "list_epochs" "re.findall(INFO lazily to local, DOTALL)",
   pA "data" "epochs kept at indices 1, 150, 299",
   pA "data" "each block without its final line",
   pFor "data",
   pSh "head" ["-n", "3", "{output_dir}/results/scaffold_memory.csv"]]

def dock_prog : List PyStmt :=
  [pA "reinvent_dir" "os.path.expanduser(Reinvent)",
   pA "reinvent_env" "os.path.expanduser(reinvent.v3.0 env)",
   pA "dockstream_dir" "os.path.expanduser(DockStream)",
   pA "dockstream_env" "os.path.expanduser(DockStream env python)",
   pA "docker_path" "os.path.join(dockstream_dir, docker.py)",
   pA "output_dir" "os.path.expanduser(REINVENT_RL_DockStream_demo)",
   .tryStmt (.exprStmt "ipynb_path") "NameError"
     (.assignStmt "ipynb_path" "os.getcwd()"),
   .tryStmt (.mkdirStmt "output_dir") "FileExistsError" .passStmt,
   pA "grid_file_path" "os.path.expanduser(1UYD_grid.zip)",
   pA "output_ligands_docked_poses_path" "os.path.expanduser(docked_poses)",
   pA "output_ligands_docking_scores_path"
     "os.path.expanduser(docking_scores)",
   .tryStmt (.mkdirStmt "output_ligands_docked_poses_path") "FileExistsError"
     .passStmt,
   .tryStmt (.mkdirStmt "output_ligands_docking_scores_path")
     "FileExistsError" .passStmt,
   pA "docking_configuration_path"
     "os.path.join(output_dir, Glide_DockStream_Conf.json)",
   pA "ed_dict" "dict literal",
   pDump "ed_dict" "docking_configuration_path" 2 false,
   pA "configuration" "dict literal",
   pA "configuration[logging]" "dict literal",
   pA "configuration[parameters]" "empty dict",
   pA "configuration[parameters][diversity_filter]" "dict literal",
   pA "configuration[parameters][inception]" "dict literal",
   pA "configuration[parameters][reinforcement_learning]" "dict literal",
   pA "scoring_function" "dict literal",
   pA "configuration[parameters][scoring_function]" "scoring_function",
   pA "configuration_JSON_path"
     "os.path.join(output_dir, RL_DockStream_config.json)",
   pDump "configuration" "configuration_JSON_path" 4 true,
   pSh "{reinvent_env}/bin/python"
     ["{reinvent_dir}/input.py", "{configuration_JSON_path}"],
   pW "os.path.join(output_dir, run.err)" "captured_err_stream.stdout",
   pA "list_epochs" "re.findall(INFO lazily to local, DOTALL)",
   pA "data" "all epochs",
   pA "data" "each block without its final line",
   pFor "data",
   pSh "head" ["-n", "15", "{output_dir}/results/memory.csv"]]

def tan_prog : List PyStmt :=
  [pA "reinvent_dir" "os.path.expanduser(Reinvent)",
   pA "reinvent_env" "os.path.expanduser(reinvent.v3.0 env)",
   pA "output_dir" "os.path.expanduser(REINVENT_RL_Tanimoto_Similarity_demo)",
   .tryStmt (.exprStmt "ipynb_path") "NameError"
     (.assignStmt "ipynb_path" "os.getcwd()"),
   .tryStmt (.mkdirStmt "output_dir") "FileExistsError" .passStmt,
   pA "configuration" "dict literal",
   pA "configuration[logging]" "dict literal",
   pA "configuration[parameters]" "empty dict",
   pA "configuration[parameters][diversity_filter]" "dict literal",
   pA "configuration[parameters][inception]" "dict literal",
   pA "configuration[parameters][reinforcement_learning]" "dict literal",
   pA "scoring_function" "dict literal",
   pA "configuration[parameters][scoring_function]" "scoring_function",
   pA "configuration_JSON_path" "os.path.join(output_dir, RL_config.json)",
   pDump "configuration" "configuration_JSON_path" 4 true,
   pSh "{reinvent_env}/bin/python"
     ["{reinvent_dir}/input.py", "{configuration_JSON_path}"],
   pW "os.path.join(output_dir, run.err)" "captured_err_stream.stdout",
   pA "list_epochs" "re.findall(INFO lazily to local, DOTALL)",
   pA "data" "epochs kept at indices 1, 75, 124",
   pA "data" "each block without its final line",
   pFor "data",
   pSh "head" ["-n", "15", "{output_dir}/results/memory.csv"]]

def expl_prog : List PyStmt :=
  [pA "reinvent_dir" "os.path.expanduser(Reinvent)",
   pA "reinvent_env" "os.path.expanduser(reinvent.v3.0 env)",
   pA "output_dir" "os.path.expanduser(REINVENT_RL_Exploration_demo)",
   .tryStmt (.exprStmt "ipynb_path") "NameError"
     (.assignStmt "ipynb_path" "os.getcwd()"),
   .tryStmt (.mkdirStmt "output_dir") "FileExistsError" .passStmt,
   pA "configuration" "dict literal",
   pA "configuration[logging]" "dict literal",
   pA "configuration[parameters]" "empty dict",
   pA "configuration[parameters][diversity_filter]" "dict literal",
   pA "configuration[parameters][inception]" "dict literal",
   pA "configuration[parameters][reinforcement_learning]" "dict literal",
   pA "scoring_function" "dict literal",
   pA "configuration[parameters][scoring_function]" "scoring_function",
   pA "configuration_JSON_path" "os.path.join(output_dir, RL_config.json)",
   pDump "configuration" "configuration_JSON_path" 4 true,
   pSh "{reinvent_env}/bin/python"
     ["{reinvent_dir}/input.py", "{configuration_JSON_path}"],
   pW "os.path.join(output_dir, run.err)" "captured_err_stream.stdout",
   pA "list_epochs" "re.findall(INFO lazily to local, DOTALL)",
   pA "data" "epochs kept at indices 1, 75, 124",
   pA "data" "each block without its final line",
   pFor "data",
   pSh "head" ["-n", "15", "{output_dir}/results/memory.csv"]]

def selv_prog : List PyStmt :=
  [pA "reinvent_dir" "os.path.expanduser(Reinvent)",
   pA "reinvent_env" "os.path.expanduser(reinvent.v3.0 env)",
   pA "output_dir" "os.path.expanduser(REINVENT_RL_Selectivity_demo)",
   .tryStmt (.exprStmt "ipynb_path") "NameError"
     (.assignStmt "ipynb_path" "os.getcwd()"),
   .tryStmt (.mkdirStmt "output_dir") "FileExistsError" .passStmt,
   pA "configuration" "dict literal",
   pA "configuration[logging]" "dict literal",
   pA "configuration[parameters]" "empty dict",
   pA "configuration[parameters][diversity_filter]" "dict literal",
   pA "configuration[parameters][inception]" "dict literal",
   pA "configuration[parameters][reinforcement_learning]" "dict literal",
   pA "scoring_function" "dict literal",
   pA "configuration[parameters][scoring_function]" "scoring_function",
   pA "configuration_JSON_path" "os.path.join(output_dir, RL_config.json)",
   pDump "configuration" "configuration_JSON_path" 4 true,
   pSh "{reinvent_env}/bin/python"
     ["{reinvent_dir}/input.py", "{configuration_JSON_path}"],
   pW "os.path.join(output_dir, run.err)" "captured_err_stream.stdout",
   pA "list_epochs" "re.findall(INFO lazily to local, DOTALL)",
   pA "data" "epochs kept at indices 1, 75, 124",
   pA "data" "each block without its final line",
   pFor "data",
   pSh "head" ["-n", "15", "{output_dir}/results/memory.csv"]]

def samp_prog : List PyStmt :=
  [pA "reinvent_dir" "os.path.expanduser(Reinvent)",
   pA "reinvent_env" "os.path.expanduser(reinvent.v3.0 env)",
   pA "output_dir" "os.path.expanduser(REINVENT_sampling_demo)",
   .tryStmt (.exprStmt "ipynb_path") "NameError"
     (.assignStmt "ipynb_path" "os.getcwd()"),
   .tryStmt (.mkdirStmt "output_dir") "FileExistsError" .passStmt,
   pA "configuration" "dict literal",
   pA "configuration[logging]" "dict literal",
   pA "output_SMILES_path" "os.path.join(output_dir, sampled, sampled.smi)",
   pA "configuration[parameters]" "dict literal",
   pA "configuration_JSON_path"
     "os.path.join(output_dir, sampling_config.json)",
   pDump "configuration" "configuration_JSON_path" 4 true,
   pSh "{reinvent_env}/bin/python"
     ["{reinvent_dir}/input.py", "{configuration_JSON_path}"],
   pW "os.path.join(output_dir, run.err)" "captured_err_stream.stdout",
   pSh "head" ["-n", "15", "{output_dir}/sampled/sampled.smi"]]

/-- All six notebooks. -/
def allProgs : List (List PyStmt) :=
  [drd2_prog, dock_prog, tan_prog, expl_prog, selv_prog, samp_prog]

/-- Checker for claim C1: the completed configuration has the top-level
`version`, `run_type` and `logging` entries and a `parameters` dictionary
containing the four reinforcement-learning sub-blocks. -/
def hasRLShape (cfg : List JField) : Bool :=
  (dictGet cfg "version".toList).isSome &&
  (dictGet cfg "run_type".toList).isSome &&
  (dictGet cfg "logging".toList).isSome &&
  (match dictGet cfg "parameters".toList with
   | some (.jobj ps) =>
     (dictGet ps "scoring_function".toList).isSome &&
     (dictGet ps "diversity_filter".toList).isSome &&
     (dictGet ps "inception".toList).isSome &&
     (dictGet ps "reinforcement_learning".toList).isSome
   | _ => false)

/-! ### Python dictionary equality (order-insensitive on objects)

`json.load` of a written file compares `==` to the in-memory dictionary in
Python even though `sort_keys=True` reordered the entries; `DictEq` is that
notion of equality: values equal up to reordering object entries (the
notebooks' dictionaries have no duplicate keys). -/

mutual

inductive DictEq : JValue → JValue → Prop where
  | nullE : DictEq .jnull .jnull
  | boolE (b : Bool) : DictEq (.jbool b) (.jbool b)
  | intE (n : Int) : DictEq (.jint n) (.jint n)
  | floatE (m : Int) (e : Nat) : DictEq (.jfloat m e) (.jfloat m e)
  | strE (s : List Char) : DictEq (.jstr s) (.jstr s)
  | arrE (l₁ l₂ : List JValue) :
      DictEqList l₁ l₂ → DictEq (.jarr l₁) (.jarr l₂)
  | objE (fs₁ mid fs₂ : List JField) :
      fs₁.Perm mid → DictEqFields mid fs₂ → DictEq (.jobj fs₁) (.jobj fs₂)

inductive DictEqList : List JValue → List JValue → Prop where
  | nilE : DictEqList [] []
  | consE (a b : JValue) (l₁ l₂ : List JValue) :
      DictEq a b → DictEqList l₁ l₂ → DictEqList (a :: l₁) (b :: l₂)

inductive DictEqFields : List JField → List JField → Prop where
  | nilF : DictEqFields [] []
  | consF (k : List Char) (v w : JValue) (fs gs : List JField) :
      DictEq v w → DictEqFields fs gs →
      DictEqFields ((k, v) :: fs) ((k, w) :: gs)

end

/-- The keys of a top-level object, in stored order. -/
def topKeys : JValue → List (List Char)
  | .jobj fs => fs.map Prod.fst
  | _ => []

/-- A remainder that cannot extend a rendered number: empty, or starting with
a character that is neither a digit nor a decimal point.  Every separator the
serializer emits after a value (`,`, a newline, `]`, the closing brace)
qualifies. -/
def stopOk (rest : List Char) : Prop :=
  ∀ c t, rest = c :: t → (c.isDigit = false ∧ c ≠ '.')

/-- A run of whitespace characters (the serializer's pads and newlines). -/
def wsRun (pre : List Char) : Prop := ∀ c ∈ pre, isWsChar c = true

/-! ## Theorems -/

/-- C3: when the output directory already exists, `os.mkdir` raises
`FileExistsError`, which the `try`/`except FileExistsError: pass` cell
catches and ignores, leaving the directory state untouched; any other
`os.mkdir` failure propagates out of the cell unchanged. -/
theorem mkdir_guard_catches_only_file_exists (dirs : List String)
    (failing : String → Option Nat) (d : String) :
    (d ∈ dirs → mkdirGuarded dirs failing d = .ok dirs) ∧
    (∀ e, osMkdir dirs failing d = .error e → e ≠ .fileExists →
      mkdirGuarded dirs failing d = .error e) := by
  constructor
  · intro hd
    simp only [mkdirGuarded, osMkdir, if_pos hd]
  · intro e he hne
    unfold mkdirGuarded
    rw [he]
    cases e with
    | fileExists => exact absurd rfl hne
    | osFailure c => rfl

/-- Witness for C3: an existing directory is kept as-is, and a permission
failure (`errno` 13) propagates. -/
theorem mkdir_guard_catches_only_file_exists_w :
    mkdirGuarded ["out"] (fun _ => none) "out" = .ok ["out"] ∧
    mkdirGuarded [] (fun s => if s = "locked" then some 13 else none)
      "locked" = .error (.osFailure 13) := by
  constructor
  · exact (mkdir_guard_catches_only_file_exists ["out"] (fun _ => none)
      "out").1 (by decide)
  · exact (mkdir_guard_catches_only_file_exists []
      (fun s => if s = "locked" then some 13 else none) "locked").2
      (.osFailure 13) rfl (by decide)

/-- C1: each reinforcement-learning notebook's completed configuration
dictionary has top-level `version`, `run_type` and `logging` entries, and its
`parameters` dictionary contains the `scoring_function`, `diversity_filter`,
`inception` and `reinforcement_learning` sub-blocks. -/
theorem rl_configs_contain_required_blocks :
    hasRLShape drd2_configuration = true ∧
    hasRLShape dock_configuration = true ∧
    hasRLShape tan_configuration = true ∧
    hasRLShape expl_configuration = true ∧
    hasRLShape selv_configuration = true :=
  ⟨rfl, rfl, rfl, rfl, rfl⟩

/-- C7: assigning one key of a Python dictionary leaves every other key's
value unchanged, and consequently the DRD2 notebook's later assignments
(diversity filter, inception, reinforcement learning, logging) leave the
initially stored `version`, `run_type` and `parameters.scoring_function`
values intact in the final serialized dictionary. -/
theorem incremental_build_preserves_earlier_entries :
    (∀ (d : List JField) (k : List Char) (v : JValue) (k' : List Char),
       k' ≠ k → dictGet (dictSet d k v) k' = dictGet d k') ∧
    dictGet drd2_configuration "version".toList = some (.jint 3) ∧
    dictGet drd2_configuration "run_type".toList =
      some (js "reinforcement_learning") ∧
    dictGet2 drd2_configuration "parameters".toList
      "scoring_function".toList = some drd2_scoring_function := by
  refine ⟨?_, rfl, rfl, rfl⟩
  intro d k v k' hne
  induction d with
  | nil => simp [dictSet, dictGet, hne.symm]
  | cons f fs ih =>
    by_cases h : f.1 = k
    · have hkk : ¬ k = k' := fun hh => hne hh.symm
      simp [dictSet, if_pos h, dictGet, h, hkk]
    · simp only [dictSet, if_neg h, dictGet]
      by_cases h₂ : f.1 = k'
      · simp [h₂]
      · simp [h₂, ih]

/-- Witness for C7's frame property at a concrete dictionary and keys. -/
theorem incremental_build_preserves_earlier_entries_w :
    dictGet (dictSet [fld "a" .jnull] "b".toList (.jint 1)) "a".toList =
      dictGet [fld "a" .jnull] "a".toList :=
  incremental_build_preserves_earlier_entries.1 [fld "a" .jnull]
    "b".toList (.jint 1) "a".toList (by decide)

/-- C4 counterexample: in the Sampling notebook (as in every notebook), the
`try: ipynb_path / except NameError:` cell guards a statement that is not an
`os.mkdir` call, so it is false that only `os.mkdir` calls are guarded by
exception handlers. -/
theorem only_mkdir_guarded_cx : guardsOnlyMkdir samp_prog = false := rfl

/-- C4 (amended): every exception handler in every notebook is either the
`FileExistsError` handler around a single `os.mkdir` call (with a `pass`
handler) or the `NameError` handler around the bare `ipynb_path` lookup
(whose handler assigns `ipynb_path = os.getcwd()`); no other statement is
guarded. -/
theorem try_blocks_are_mkdir_or_ipynb_lookup :
    (allProgs.all fun prog =>
      (collectTries prog).all fun t => isMkdirTry t || isIpynbPathTry t) =
      true := rfl

/-- C6: every notebook invokes the REINVENT entry point exactly once, passing
as sole argument (after the `input.py` script) the `configuration_JSON_path`
it has just written, which is the path of the last `json.dump` executed
before the invocation; the statement lists contain no concurrency,
scheduling or cancellation constructs, and execution is the sequential
interpretation of the cells. -/
theorem single_blocking_reinvent_invocation :
    (allProgs.all fun prog =>
      (reinventCalls prog ==
        [["{reinvent_dir}/input.py", "{configuration_JSON_path}"]]) &&
      (lastDumpBefore none prog == some "configuration_JSON_path")) =
      true := rfl

/-! Helper lemmas: the key order is total and transitive, and the stable
insertion sort modelling `sort_keys=True` sorts and permutes. -/

theorem keyLe_total : ∀ a b : List Char, keyLe a b = true ∨ keyLe b a = true := by
  intro a
  induction a with
  | nil => intro b; left; rfl
  | cons c cs ih =>
    intro b
    cases b with
    | nil => right; rfl
    | cons d ds =>
      by_cases h₁ : c.toNat < d.toNat
      · left; simp [keyLe, h₁]
      · by_cases h₂ : d.toNat < c.toNat
        · right; simp [keyLe, h₂]
        · rcases ih ds with h | h
          · left; simp [keyLe, h₁, h₂, h]
          · right; simp [keyLe, h₁, h₂, h]

theorem keyLe_trans : ∀ a b c : List Char,
    keyLe a b = true → keyLe b c = true → keyLe a c = true := by
  intro a
  induction a with
  | nil => intro b c _ _; rfl
  | cons x xs ih =>
    intro b c hab hbc
    cases b with
    | nil => simp [keyLe] at hab
    | cons y ys =>
      cases c with
      | nil => simp [keyLe] at hbc
      | cons z zs =>
        simp only [keyLe] at hab hbc ⊢
        by_cases h₁ : x.toNat < y.toNat
        · by_cases h₂ : y.toNat < z.toNat
          · simp [show x.toNat < z.toNat by omega]
          · by_cases h₃ : z.toNat < y.toNat
            · simp [h₂, h₃] at hbc
            · simp [show x.toNat < z.toNat by omega]
        · by_cases h₄ : y.toNat < x.toNat
          · simp [h₁, h₄] at hab
          · simp only [if_neg h₁, if_neg h₄] at hab
            by_cases h₂ : y.toNat < z.toNat
            · simp [show x.toNat < z.toNat by omega]
            · by_cases h₃ : z.toNat < y.toNat
              · simp [h₂, h₃] at hbc
              · simp only [if_neg h₂, if_neg h₃] at hbc
                simp only [if_neg (show ¬ x.toNat < z.toNat by omega),
                  if_neg (show ¬ z.toNat < x.toNat by omega)]
                exact ih ys zs hab hbc

theorem mem_insField (f x : JField) :
    ∀ l : List JField, x ∈ insField f l → x = f ∨ x ∈ l := by
  intro l
  induction l with
  | nil => intro h; simp [insField] at h; exact Or.inl h
  | cons g gs ih =>
    simp only [insField]
    by_cases h : keyLe f.1 g.1 = true
    · simp only [if_pos h]
      intro hm
      rcases List.mem_cons.mp hm with rfl | hm₂
      · exact Or.inl rfl
      · exact Or.inr hm₂
    · simp only [if_neg h]
      intro hm
      rcases List.mem_cons.mp hm with rfl | hm₂
      · exact Or.inr (List.mem_cons_self _ _)
      · rcases ih hm₂ with rfl | hx
        · exact Or.inl rfl
        · exact Or.inr (List.mem_cons_of_mem _ hx)

theorem sorted_insField (f : JField) :
    ∀ l : List JField, l.Pairwise (fun a b => keyLe a.1 b.1 = true) →
      (insField f l).Pairwise (fun a b => keyLe a.1 b.1 = true) := by
  intro l
  induction l with
  | nil => intro _; simp [insField]
  | cons g gs ih =>
    intro hp
    rcases List.pairwise_cons.mp hp with ⟨hg, hgs⟩
    simp only [insField]
    by_cases h : keyLe f.1 g.1 = true
    · simp only [if_pos h]
      refine List.pairwise_cons.mpr ⟨?_, hp⟩
      intro x hx
      rcases List.mem_cons.mp hx with rfl | hx₂
      · exact h
      · exact keyLe_trans _ _ _ h (hg x hx₂)
    · simp only [if_neg h]
      refine List.pairwise_cons.mpr ⟨?_, ih hgs⟩
      intro x hx
      rcases mem_insField f x gs hx with rfl | hx₂
      · rcases keyLe_total x.1 g.1 with ht | ht
        · exact absurd ht h
        · exact ht
      · exact hg x hx₂

theorem sortFields_sorted :
    ∀ l : List JField,
      (sortFields l).Pairwise (fun a b => keyLe a.1 b.1 = true) := by
  intro l
  induction l with
  | nil => simp [sortFields]
  | cons f fs ih => exact sorted_insField f _ ih

theorem insField_perm (f : JField) :
    ∀ l : List JField, (insField f l).Perm (f :: l) := by
  intro l
  induction l with
  | nil => exact List.Perm.refl _
  | cons g gs ih =>
    simp only [insField]
    by_cases h : keyLe f.1 g.1 = true
    · simp only [if_pos h]
      exact List.Perm.refl _
    · simp only [if_neg h]
      exact (ih.cons g).trans (List.Perm.swap f g gs)

theorem sortFields_perm : ∀ l : List JField, (sortFields l).Perm l := by
  intro l
  induction l with
  | nil => exact List.Perm.refl _
  | cons f fs ih => exact (insField_perm f _).trans (ih.cons f)

/-- C8: serialization is a function of the configuration value alone (equal
dictionaries give byte-identical files); `sort_keys=True` puts the entries of
every emitted object in sorted key order; and concretely the top level of the
serialized DRD2 reinforcement-learning configuration lists its keys as
`logging`, `parameters`, `run_type`, `version`. -/
theorem json_dump_deterministic_and_sorted :
    (∀ v w : JValue, v = w → pyJsonDump v = pyJsonDump w) ∧
    (∀ fs : List JField,
      (sortFields fs).Pairwise (fun a b => keyLe a.1 b.1 = true)) ∧
    topKeys (canon (.jobj drd2_configuration)) =
      ["logging".toList, "parameters".toList, "run_type".toList,
       "version".toList] :=
  ⟨fun _ _ h => h ▸ rfl, sortFields_sorted, rfl⟩

/-- Witness for C8 at a concrete pair of equal values. -/
theorem json_dump_deterministic_and_sorted_w :
    pyJsonDump (.jobj samp_configuration) =
      pyJsonDump (.jobj samp_configuration) :=
  json_dump_deterministic_and_sorted.1 _ _ rfl

/-! Helper lemmas for the regex embedding. -/

theorem hasPre_length : ∀ pat s : List Char,
    hasPre pat s = true → pat.length ≤ s.length := by
  intro pat
  induction pat with
  | nil => intro s _; simp
  | cons a as ih =>
    intro s h
    cases s with
    | nil => simp [hasPre] at h
    | cons b bs =>
      simp only [hasPre, Bool.and_eq_true, beq_iff_eq] at h
      simp only [List.length_cons]
      exact Nat.succ_le_succ (ih bs h.2)

theorem hasPre_eq_append : ∀ pat s : List Char,
    hasPre pat s = true → s = pat ++ s.drop pat.length := by
  intro pat
  induction pat with
  | nil => intro s _; simp
  | cons a as ih =>
    intro s h
    cases s with
    | nil => simp [hasPre] at h
    | cons b bs =>
      simp only [hasPre, Bool.and_eq_true, beq_iff_eq] at h
      obtain ⟨rfl, h₂⟩ := h
      simp only [List.cons_append, List.length_cons, List.drop_succ_cons]
      exact congrArg (List.cons a) (ih bs h₂)

theorem hasPre_mono : ∀ pat a b : List Char,
    hasPre pat a = true → hasPre pat (a ++ b) = true := by
  intro pat
  induction pat with
  | nil => intro a b _; rfl
  | cons x xs ih =>
    intro a b h
    cases a with
    | nil => simp [hasPre] at h
    | cons y ys =>
      simp only [hasPre, Bool.and_eq_true, beq_iff_eq] at h
      simp only [List.cons_append, hasPre, Bool.and_eq_true, beq_iff_eq]
      exact ⟨h.1, ih ys b h.2⟩

theorem firstOcc_some_spec : ∀ (pat t : List Char) (k : Nat),
    firstOcc pat t = some k →
      hasPre pat (t.drop k) = true ∧ ∀ p < k, hasPre pat (t.drop p) = false := by
  intro pat t
  induction t with
  | nil =>
    intro k h
    simp only [firstOcc] at h
    by_cases hp : hasPre pat [] = true
    · rw [if_pos hp] at h
      cases h
      exact ⟨by simpa using hp, fun p hp' => absurd hp' (by omega)⟩
    · rw [if_neg hp] at h
      cases h
  | cons c rest ih =>
    intro k h
    simp only [firstOcc] at h
    by_cases hp : hasPre pat (c :: rest) = true
    · rw [if_pos hp] at h
      cases h
      exact ⟨by simpa using hp, fun p hp' => absurd hp' (by omega)⟩
    · rw [if_neg hp] at h
      cases hro : firstOcc pat rest with
      | none => rw [hro] at h; simp at h
      | some k' =>
        rw [hro] at h
        simp only [Option.map_some'] at h
        cases h
        obtain ⟨h₁, h₂⟩ := ih k' hro
        constructor
        · simpa [List.drop_succ_cons] using h₁
        · intro p hplt
          cases p with
          | zero =>
            simp only [List.drop_zero]
            cases hb : hasPre pat (c :: rest) with
            | false => rfl
            | true => exact absurd hb hp
          | succ q =>
            simp only [List.drop_succ_cons]
            exact h₂ q (by omega)

theorem firstOcc_none_spec : ∀ pat t : List Char,
    firstOcc pat t = none → ∀ p, hasPre pat (t.drop p) = false := by
  intro pat t
  induction t with
  | nil =>
    intro h p
    simp only [firstOcc] at h
    by_cases hp : hasPre pat [] = true
    · rw [if_pos hp] at h; cases h
    · simp only [List.drop_nil]
      cases hb : hasPre pat [] with
      | false => rfl
      | true => exact absurd hb hp
  | cons c rest ih =>
    intro h p
    simp only [firstOcc] at h
    by_cases hp : hasPre pat (c :: rest) = true
    · rw [if_pos hp] at h; cases h
    · rw [if_neg hp] at h
      cases hro : firstOcc pat rest with
      | some k' => rw [hro] at h; simp at h
      | none =>
        cases p with
        | zero =>
          simp only [List.drop_zero]
          cases hb : hasPre pat (c :: rest) with
          | false => rfl
          | true => exact absurd hb hp
        | succ q =>
          simp only [List.drop_succ_cons]
          exact ih hro q

theorem FindallSpec.skip (c : Char) (t : List Char) (ms : List (List Char))
    (hc : canMatch (c :: t) = false) (h : FindallSpec t ms) :
    FindallSpec (c :: t) ms := by
  cases h with
  | gaps s hall =>
    apply FindallSpec.gaps
    intro p
    cases p with
    | zero => simpa using hc
    | succ q => simpa [List.drop_succ_cons] using hall q
  | seg g e r ms₂ hgap hm hr =>
    have hre : c :: (g ++ (e ++ r)) = (c :: g) ++ (e ++ r) := rfl
    rw [hre]
    refine FindallSpec.seg (c :: g) e r ms₂ ?_ hm hr
    intro p hplt
    cases p with
    | zero => simpa using hc
    | succ q =>
      have hq : ((c :: g) ++ (e ++ r)).drop (q + 1) = (g ++ (e ++ r)).drop q :=
        rfl
      rw [hq]
      exact hgap q (by simpa [List.length_cons] using hplt)

/-- Unfolding of `findallIL` when a match starts at the head. -/
theorem findallIL_pos (c : Char) (rest : List Char) (k : Nat)
    (hinfo : hasPre infoPat (c :: rest) = true)
    (hocc : firstOcc localPat ((c :: rest).drop 4) = some k) :
    findallIL (c :: rest) =
      (c :: rest).take (9 + k) :: findallIL ((c :: rest).drop (9 + k)) := by
  simp only [findallIL]
  rw [if_pos hinfo, hocc]

theorem findall_spec_aux : ∀ (n : Nat) (s : List Char), s.length ≤ n →
    FindallSpec s (findallIL s) := by
  intro n
  induction n with
  | zero =>
    intro s hs
    have : s = [] := List.length_eq_zero.mp (Nat.le_zero.mp hs)
    subst this
    simp only [findallIL]
    apply FindallSpec.gaps
    intro p
    simp [canMatch, List.drop_nil, hasPre, infoPat]
  | succ n ih =>
    intro s hs
    cases s with
    | nil =>
      simp only [findallIL]
      apply FindallSpec.gaps
      intro p
      simp [canMatch, List.drop_nil, hasPre, infoPat]
    | cons c rest =>
      by_cases hinfo : hasPre infoPat (c :: rest) = true
      · cases hocc : firstOcc localPat ((c :: rest).drop 4) with
        | some k =>
          rw [findallIL_pos c rest k hinfo hocc]
          obtain ⟨hp, hmin⟩ := firstOcc_some_spec localPat _ k hocc
          have hs4 : (c :: rest) = infoPat ++ (c :: rest).drop 4 := by
            simpa using hasPre_eq_append infoPat _ hinfo
          have htk : ((c :: rest).drop 4).drop k =
              localPat ++ ((c :: rest).drop 4).drop (k + 5) := by
            have h₀ := hasPre_eq_append localPat _ hp
            simpa [List.drop_drop] using h₀
          have hk5 : k + 5 ≤ ((c :: rest).drop 4).length := by
            have h₁ := hasPre_length localPat _ hp
            simp only [List.length_drop, localPat, List.length_cons] at h₁ ⊢
            omega
          have he : (c :: rest).take (9 + k) =
              infoPat ++ (((c :: rest).drop 4).take k ++ localPat) := by
            conv_lhs => rw [hs4]
            rw [show 9 + k = infoPat.length + (k + 5) from by
              simp [infoPat]; omega]
            rw [List.take_append, List.take_add, htk,
              List.take_left' (by simp [localPat])]
          have hmidlen : (((c :: rest).drop 4).take k).length = k := by
            simp only [List.length_take]
            omega
          have hmatch : IsMatch ((c :: rest).take (9 + k)) := by
            refine ⟨((c :: rest).drop 4).take k, he, ?_⟩
            intro p hp'
            rw [hmidlen] at hp'
            cases hb : hasPre localPat
                ((((c :: rest).drop 4).take k ++ localPat).drop p) with
            | false => rfl
            | true =>
              exfalso
              have htp : ((c :: rest).drop 4).drop p =
                  ((((c :: rest).drop 4).take k ++ localPat).drop p) ++
                    ((c :: rest).drop 4).drop (k + 5) := by
                conv_lhs =>
                  rw [show (c :: rest).drop 4 =
                    ((c :: rest).drop 4).take k ++
                      (localPat ++ ((c :: rest).drop 4).drop (k + 5)) from by
                    rw [← htk, List.take_append_drop]]
                rw [← List.append_assoc]
                rw [List.drop_append_of_le_length (by
                  rw [List.length_append, hmidlen]
                  have h5 : localPat.length = 5 := rfl
                  omega)]
              have hmono := hasPre_mono localPat _
                (((c :: rest).drop 4).drop (k + 5)) hb
              rw [← htp] at hmono
              rw [hmin p hp'] at hmono
              exact Bool.false_ne_true hmono
          have hrlen : ((c :: rest).drop (9 + k)).length ≤ n := by
            simp only [List.length_drop, List.length_cons]
            simp only [List.length_cons] at hs
            omega
          have hfound := FindallSpec.seg []
            ((c :: rest).take (9 + k)) ((c :: rest).drop (9 + k))
            (findallIL ((c :: rest).drop (9 + k)))
            (by intro p hp'; simp at hp') hmatch (ih _ hrlen)
          simpa [List.take_append_drop] using hfound
        | none =>
          have heq : findallIL (c :: rest) = findallIL rest := by
            simp only [findallIL]
            rw [if_pos hinfo, hocc]
          rw [heq]
          apply FindallSpec.skip
          · simp only [canMatch]
            rw [hocc]
            simp
          · exact ih rest (by simpa [List.length_cons] using hs)
      · have heq : findallIL (c :: rest) = findallIL rest := by
          simp only [findallIL]
          rw [if_neg hinfo]
        rw [heq]
        apply FindallSpec.skip
        · have hfalse : hasPre infoPat (c :: rest) = false := by
            cases hb : hasPre infoPat (c :: rest) with
            | false => rfl
            | true => exact absurd hb hinfo
          simp only [canMatch]
          rw [hfalse]
          simp
        · exact ih rest (by simpa [List.length_cons] using hs)

/-- C2: for every captured stdout, `list_epochs` is the ordered list of
non-overlapping leftmost matches of `INFO.*?local` with DOTALL: the stdout
splits into gaps at whose positions no match can start, interleaved in order
with the matches, and each match starts at `INFO` and extends exactly to the
nearest following occurrence of `local`. -/
theorem list_epochs_regex_semantics (stdout : List Char) :
    FindallSpec stdout (findallIL stdout) :=
  findall_spec_aux stdout.length stdout (Nat.le_refl _)

/-! Helper lemmas for the display-selection pipeline. -/

theorem pySelectGo_sublist (idxs : List Nat) :
    ∀ (l : List (List Char)) (i : Nat), (pySelectGo idxs i l).Sublist l := by
  intro l
  induction l with
  | nil => intro i; simp [pySelectGo]
  | cons e rest ih =>
    intro i
    simp only [pySelectGo]
    by_cases h : i ∈ idxs
    · rw [if_pos h]
      exact (ih (i + 1)).cons₂ e
    · rw [if_neg h]
      exact (ih (i + 1)).cons e

theorem pySelectGo_mem_spec (idxs : List Nat) :
    ∀ (l : List (List Char)) (i : Nat) (e : List Char),
      e ∈ pySelectGo idxs i l →
        ∃ j ∈ idxs, i ≤ j ∧ l.get? (j - i) = some e := by
  intro l
  induction l with
  | nil => intro i e h; simp [pySelectGo] at h
  | cons a rest ih =>
    intro i e h
    simp only [pySelectGo] at h
    by_cases hm : i ∈ idxs
    · rw [if_pos hm] at h
      rcases List.mem_cons.mp h with rfl | h₂
      · exact ⟨i, hm, Nat.le_refl i, by simp⟩
      · obtain ⟨j, hj, hij, hg⟩ := ih (i + 1) e h₂
        refine ⟨j, hj, by omega, ?_⟩
        rw [show j - i = (j - (i + 1)) + 1 from by omega]
        simpa using hg
    · rw [if_neg hm] at h
      obtain ⟨j, hj, hij, hg⟩ := ih (i + 1) e h
      refine ⟨j, hj, by omega, ?_⟩
      rw [show j - i = (j - (i + 1)) + 1 from by omega]
      simpa using hg

theorem pySelectGo_complete (idxs : List Nat) :
    ∀ (l : List (List Char)) (i j : Nat) (e : List Char),
      j ∈ idxs → i ≤ j → l.get? (j - i) = some e →
        e ∈ pySelectGo idxs i l := by
  intro l
  induction l with
  | nil => intro i j e _ _ h; simp at h
  | cons a rest ih =>
    intro i j e hj hij hg
    simp only [pySelectGo]
    by_cases hji : j = i
    · subst hji
      simp only [Nat.sub_self, List.get?] at hg
      cases hg
      rw [if_pos hj]
      exact List.mem_cons_self _ _
    · have hlt : i + 1 ≤ j := by omega
      have hg₂ : rest.get? (j - (i + 1)) = some e := by
        rw [show j - i = (j - (i + 1)) + 1 from by omega] at hg
        simpa using hg
      have hmem := ih (i + 1) j e hj hlt hg₂
      by_cases hm : i ∈ idxs
      · rw [if_pos hm]
        exact List.mem_cons_of_mem a hmem
      · rw [if_neg hm]
        exact hmem

theorem filter_succ_length_lt (idxs : List Nat) (i : Nat) :
    i ∈ idxs →
      (idxs.filter (fun j => decide (i + 1 ≤ j))).length <
        (idxs.filter (fun j => decide (i ≤ j))).length := by
  induction idxs with
  | nil => intro h; simp at h
  | cons a as ih =>
    intro h
    have hmono : List.Sublist (as.filter (fun j => decide (i + 1 ≤ j)))
        (as.filter (fun j => decide (i ≤ j))) :=
      List.monotone_filter_right as (fun b hb => by
        simp only [decide_eq_true_eq] at hb ⊢
        omega)
    have hlen := hmono.length_le
    rcases List.mem_cons.mp h with rfl | has
    · rw [List.filter_cons, List.filter_cons,
        if_neg (show ¬ decide (i + 1 ≤ i) = true by
          simp only [decide_eq_true_eq]; omega),
        if_pos (show decide (i ≤ i) = true by
          simp only [decide_eq_true_eq]; omega)]
      simp only [List.length_cons]
      omega
    · by_cases h₂ : i + 1 ≤ a
      · rw [List.filter_cons, List.filter_cons,
          if_pos (show decide (i + 1 ≤ a) = true by
            simp only [decide_eq_true_eq]; omega),
          if_pos (show decide (i ≤ a) = true by
            simp only [decide_eq_true_eq]; omega)]
        simp only [List.length_cons]
        exact Nat.succ_lt_succ (ih has)
      · by_cases h₁ : i ≤ a
        · have ha : a = i := by omega
          subst ha
          rw [List.filter_cons, List.filter_cons,
            if_neg (show ¬ decide (a + 1 ≤ a) = true by
              simp only [decide_eq_true_eq]; omega),
            if_pos (show decide (a ≤ a) = true by
              simp only [decide_eq_true_eq]; omega)]
          simp only [List.length_cons]
          omega
        · rw [List.filter_cons, List.filter_cons,
            if_neg (show ¬ decide (i + 1 ≤ a) = true by
              simp only [decide_eq_true_eq]; omega),
            if_neg (show ¬ decide (i ≤ a) = true by
              simp only [decide_eq_true_eq]; omega)]
          exact ih has

theorem pySelectGo_length_le (idxs : List Nat) :
    ∀ (l : List (List Char)) (i : Nat),
      (pySelectGo idxs i l).length ≤
        (idxs.filter (fun j => decide (i ≤ j))).length := by
  intro l
  induction l with
  | nil => intro i; simp [pySelectGo]
  | cons a rest ih =>
    intro i
    simp only [pySelectGo]
    by_cases hm : i ∈ idxs
    · rw [if_pos hm]
      have h₁ := ih (i + 1)
      have h₂ := filter_succ_length_lt idxs i hm
      simp only [List.length_cons]
      omega
    · rw [if_neg hm]
      have h₁ := ih (i + 1)
      have h₂ : (idxs.filter (fun j => decide (i + 1 ≤ j))).length ≤
          (idxs.filter (fun j => decide (i ≤ j))).length :=
        (List.monotone_filter_right idxs (fun b hb => by
          simp only [decide_eq_true_eq] at hb ⊢
          omega)).length_le
      omega

/-- C9: what the epoch-display cells show.  `data` is the selected regex
matches with each block's final line removed; the selection is a subsequence
of `list_epochs` (kept in original order); every displayed block sits at one
of the listed indices (1, 150, 299 for the DRD2 use-case; 1, 75 and 124 for
the other reinforcement-learning demos) and every match present at a listed
index is displayed; index 0 is never listed, so the first match never shows;
at most three blocks are kept, none when at most one match exists; and a
block consisting of a single line becomes the empty string. -/
theorem epoch_display_selection (stdout : List Char) :
    drd2_displayed stdout =
      (pySelect [1, 150, 299] (findallIL stdout)).map removeLastLine ∧
    rlDemo_displayed stdout =
      (pySelect [1, 75, 124] (findallIL stdout)).map removeLastLine ∧
    (pySelect [1, 150, 299] (findallIL stdout)).Sublist (findallIL stdout) ∧
    (pySelect [1, 75, 124] (findallIL stdout)).Sublist (findallIL stdout) ∧
    (∀ e ∈ pySelect [1, 150, 299] (findallIL stdout),
      ∃ j ∈ [1, 150, 299], (findallIL stdout).get? j = some e) ∧
    (∀ e ∈ pySelect [1, 75, 124] (findallIL stdout),
      ∃ j ∈ [1, 75, 124], (findallIL stdout).get? j = some e) ∧
    (∀ j ∈ [1, 150, 299], ∀ e, (findallIL stdout).get? j = some e →
      e ∈ pySelect [1, 150, 299] (findallIL stdout)) ∧
    (∀ j ∈ [1, 75, 124], ∀ e, (findallIL stdout).get? j = some e →
      e ∈ pySelect [1, 75, 124] (findallIL stdout)) ∧
    (drd2_displayed stdout).length ≤ 3 ∧
    (rlDemo_displayed stdout).length ≤ 3 ∧
    ((findallIL stdout).length ≤ 1 →
      drd2_displayed stdout = [] ∧ rlDemo_displayed stdout = []) ∧
    (∀ e, (splitlinesPy e).length = 1 → removeLastLine e = []) := by
  refine ⟨rfl, rfl, pySelectGo_sublist _ _ 0, pySelectGo_sublist _ _ 0,
    ?_, ?_, ?_, ?_, ?_, ?_, ?_, ?_⟩
  · intro e he
    obtain ⟨j, hj, _, hg⟩ := pySelectGo_mem_spec [1, 150, 299] _ 0 e he
    exact ⟨j, hj, by simpa using hg⟩
  · intro e he
    obtain ⟨j, hj, _, hg⟩ := pySelectGo_mem_spec [1, 75, 124] _ 0 e he
    exact ⟨j, hj, by simpa using hg⟩
  · intro j hj e hg
    exact pySelectGo_complete [1, 150, 299] _ 0 j e hj (Nat.zero_le j)
      (by simpa using hg)
  · intro j hj e hg
    exact pySelectGo_complete [1, 75, 124] _ 0 j e hj (Nat.zero_le j)
      (by simpa using hg)
  · have h₁ := pySelectGo_length_le [1, 150, 299] (findallIL stdout) 0
    have h₂ : (([1, 150, 299] : List Nat).filter
        (fun j => decide (0 ≤ j))).length = 3 := rfl
    simp only [drd2_displayed, dataPipeline, List.length_map, pySelect]
    omega
  · have h₁ := pySelectGo_length_le [1, 75, 124] (findallIL stdout) 0
    have h₂ : (([1, 75, 124] : List Nat).filter
        (fun j => decide (0 ≤ j))).length = 3 := rfl
    simp only [rlDemo_displayed, dataPipeline, List.length_map, pySelect]
    omega
  · intro hlen
    constructor
    · cases hsel : pySelect [1, 150, 299] (findallIL stdout) with
      | nil => simp [drd2_displayed, dataPipeline, hsel]
      | cons x xs =>
        exfalso
        have hx : x ∈ pySelectGo [1, 150, 299] 0 (findallIL stdout) := by
          rw [show pySelectGo [1, 150, 299] 0 (findallIL stdout) =
            pySelect [1, 150, 299] (findallIL stdout) from rfl, hsel]
          exact List.mem_cons_self _ _
        obtain ⟨j, hj, _, hg⟩ := pySelectGo_mem_spec [1, 150, 299] _ 0 x hx
        have hjlt : j - 0 < (findallIL stdout).length := by
          rcases List.get?_eq_some.mp hg with ⟨h, _⟩
          exact h
        have h1j : 1 ≤ j := by
          have hj₂ : j = 1 ∨ j = 150 ∨ j = 299 := by simpa using hj
          rcases hj₂ with rfl | rfl | rfl <;> omega
        omega
    · cases hsel : pySelect [1, 75, 124] (findallIL stdout) with
      | nil => simp [rlDemo_displayed, dataPipeline, hsel]
      | cons x xs =>
        exfalso
        have hx : x ∈ pySelectGo [1, 75, 124] 0 (findallIL stdout) := by
          rw [show pySelectGo [1, 75, 124] 0 (findallIL stdout) =
            pySelect [1, 75, 124] (findallIL stdout) from rfl, hsel]
          exact List.mem_cons_self _ _
        obtain ⟨j, hj, _, hg⟩ := pySelectGo_mem_spec [1, 75, 124] _ 0 x hx
        have hjlt : j - 0 < (findallIL stdout).length := by
          rcases List.get?_eq_some.mp hg with ⟨h, _⟩
          exact h
        have h1j : 1 ≤ j := by
          have hj₂ : j = 1 ∨ j = 75 ∨ j = 124 := by simpa using hj
          rcases hj₂ with rfl | rfl | rfl <;> omega
        omega
  · intro e h
    unfold removeLastLine
    cases hsp : splitlinesPy e with
    | nil => simp [hsp] at h
    | cons a tail =>
      cases tail with
      | nil => simp [List.dropLast, List.intercalate]
      | cons b tail₂ => simp [hsp] at h

/-- Witness for C9: with no captured output nothing is displayed, and a
single-line block is blanked by the final-line removal. -/
theorem epoch_display_selection_w :
    drd2_displayed [] = [] ∧ removeLastLine ['x'] = [] := by
  have h := epoch_display_selection []
  exact ⟨(h.2.2.2.2.2.2.2.2.2.2.1 (by simp [findallIL])).1,
    h.2.2.2.2.2.2.2.2.2.2.2 ['x'] (by decide)⟩

/-! Helper lemmas for the JSON codec round-trip (claim C5): digits and
decimal rendering. -/

theorem digitChar_spec (d : Nat) (h : d < 10) :
    (digitChar d).toNat - 48 = d ∧ (digitChar d).isDigit = true := by
  interval_cases d <;> exact ⟨by decide, by decide⟩

theorem isWs_not_digit (c : Char) (h : isWsChar c = true) : c.isDigit = false := by
  simp only [isWsChar, Bool.or_eq_true, beq_iff_eq] at h
  rcases h with ((rfl | rfl) | rfl) | rfl <;> decide

theorem digit_not_ws (c : Char) (h : c.isDigit = true) : isWsChar c = false := by
  cases hb : isWsChar c with
  | false => rfl
  | true => rw [isWs_not_digit c hb] at h; cases h

theorem digitsVal_rev_map : ∀ L : List Nat, (∀ d ∈ L, d < 10) →
    digitsVal ((L.reverse).map digitChar) = Nat.ofDigits 10 L := by
  intro L
  induction L with
  | nil => intro _; rfl
  | cons d L ih =>
    intro hall
    simp only [List.reverse_cons, List.map_append, List.map_cons,
      List.map_nil]
    unfold digitsVal
    rw [List.foldl_append]
    simp only [List.foldl_cons, List.foldl_nil]
    rw [(digitChar_spec d (hall d (List.mem_cons_self d L))).1]
    have ihh := ih fun x hx => hall x (List.mem_cons_of_mem d hx)
    unfold digitsVal at ihh
    rw [ihh, Nat.ofDigits_cons]
    ring

theorem natChars_digits (n : Nat) : ∀ c ∈ natChars n, c.isDigit = true := by
  intro c hc
  unfold natChars at hc
  by_cases h : n = 0
  · rw [if_pos h] at hc
    simp only [List.mem_singleton] at hc
    subst hc
    decide
  · rw [if_neg h] at hc
    simp only [List.mem_map, List.mem_reverse] at hc
    obtain ⟨d, hd, rfl⟩ := hc
    exact (digitChar_spec d (Nat.digits_lt_base (by norm_num) hd)).2

theorem natChars_ne_nil (n : Nat) : natChars n ≠ [] := by
  unfold natChars
  by_cases h : n = 0
  · simp [h]
  · rw [if_neg h]
    simp [Nat.digits_ne_nil_iff_ne_zero, h]

theorem digitsVal_natChars (n : Nat) : digitsVal (natChars n) = n := by
  unfold natChars
  by_cases h : n = 0
  · rw [if_pos h, h]
    rfl
  · rw [if_neg h,
      digitsVal_rev_map _ fun d hd => Nat.digits_lt_base (by norm_num) hd]
    exact Nat.ofDigits_digits 10 n

theorem foldl_zeros : ∀ m : Nat,
    List.foldl (fun a c => 10 * a + (c.toNat - 48)) 0
      (List.replicate m '0') = 0 := by
  intro m
  induction m with
  | zero => rfl
  | succ m ih => simpa [List.replicate_succ, List.foldl_cons] using ih

theorem digitsVal_padZeros (k : Nat) (ds : List Char) :
    digitsVal (padZeros k ds) = digitsVal ds := by
  unfold padZeros digitsVal
  rw [List.foldl_append, foldl_zeros]

theorem padZeros_digits (k : Nat) (ds : List Char)
    (h : ∀ c ∈ ds, c.isDigit = true) :
    ∀ c ∈ padZeros k ds, c.isDigit = true := by
  intro c hc
  rcases List.mem_append.mp hc with hl | hr
  · rw [List.eq_of_mem_replicate hl]
    decide
  · exact h c hr

theorem padZeros_length_ge (k : Nat) (ds : List Char) :
    k ≤ (padZeros k ds).length := by
  simp only [padZeros, List.length_append, List.length_replicate]
  omega

theorem digitSpan_stop (rest : List Char) (h : stopOk rest) :
    digitSpan rest = ([], rest) := by
  cases rest with
  | nil => rfl
  | cons c t => simp [digitSpan, (h c t rfl).1]

theorem digitSpan_append (ds : List Char) :
    ∀ rest, (∀ c ∈ ds, c.isDigit = true) → digitSpan rest = ([], rest) →
      digitSpan (ds ++ rest) = (ds, rest) := by
  induction ds with
  | nil => intro rest _ h; simpa using h
  | cons c t ih =>
    intro rest hall hr
    have hc : c.isDigit = true := hall c (List.mem_cons_self c t)
    have ht := ih rest (fun x hx => hall x (List.mem_cons_of_mem c hx)) hr
    simp [digitSpan, hc, ht]

theorem parseStrBody_escChars : ∀ (cs rest : List Char),
    parseStrBody (escChars cs ++ ('"' :: rest)) = some (cs, rest) := by
  intro cs
  induction cs with
  | nil =>
    intro rest
    simp only [escChars, List.nil_append]
    rw [parseStrBody.eq_def]
    simp
  | cons c cs ih =>
    intro rest
    by_cases h : c = '"' ∨ c = '\\'
    · simp only [escChars, escChar, if_pos h, List.cons_append,
        List.nil_append]
      rw [parseStrBody.eq_def]
      simp [h, ih]
    · have h1 : ¬ c = '"' := fun hh => h (Or.inl hh)
      have h2 : ¬ c = '\\' := fun hh => h (Or.inr hh)
      simp only [escChars, escChar, if_neg h, List.cons_append,
        List.nil_append]
      rw [parseStrBody.eq_def]
      simp [h1, h2, ih]

theorem skipWs_wsRun_append : ∀ pre : List Char, wsRun pre →
    ∀ t, skipWs (pre ++ t) = skipWs t := by
  intro pre
  induction pre with
  | nil => intro _ t; rfl
  | cons c p ih =>
    intro h t
    have hc := h c (List.mem_cons_self c p)
    simp only [List.cons_append, skipWs, hc, if_true]
    exact ih (fun x hx => h x (List.mem_cons_of_mem c hx)) t

theorem skipWs_head_nonws (c : Char) (t : List Char)
    (h : isWsChar c = false) : skipWs (c :: t) = c :: t := by
  simp [skipWs, h]

theorem digit_dispatch (c : Char) (h : c.isDigit = true) :
    c ≠ '[' ∧ c ≠ lbr ∧ c ≠ '"' ∧ c ≠ 'n' ∧ c ≠ 't' ∧ c ≠ 'f' ∧
    c ≠ '-' ∧ c ≠ '.' ∧ c ≠ ',' ∧ c ≠ ']' ∧ c ≠ rbr := by
  refine ⟨?_, ?_, ?_, ?_, ?_, ?_, ?_, ?_, ?_, ?_, ?_⟩ <;>
    (intro hh; rw [hh] at h; revert h; decide)

/-- Every serialized value starts with a visible character, never `']'`. -/
theorem serVal_head (lvl : Nat) (v : JValue) :
    ∃ c t, serVal lvl v = c :: t ∧ (isWsChar c = false ∧ c ≠ ']') := by
  cases v with
  | jnull =>
    refine ⟨'n', ['u', 'l', 'l'], ?_, by decide⟩
    simp [serVal]
  | jbool b =>
    cases b with
    | false =>
      refine ⟨'f', ['a', 'l', 's', 'e'], ?_, by decide⟩
      simp [serVal]
    | true =>
      refine ⟨'t', ['r', 'u', 'e'], ?_, by decide⟩
      simp [serVal]
  | jint n =>
    by_cases h : n < 0
    · refine ⟨'-', natChars n.natAbs, ?_, by decide⟩
      simp [serVal, intChars, h]
    · obtain ⟨c, t, hct⟩ :=
        List.exists_cons_of_ne_nil (natChars_ne_nil n.natAbs)
      refine ⟨c, t, by simp [serVal, intChars, h, hct], ?_⟩
      have hcd := natChars_digits _ c (hct ▸ List.mem_cons_self c t)
      exact ⟨digit_not_ws c hcd,
        (digit_dispatch c hcd).2.2.2.2.2.2.2.2.2.1⟩
  | jfloat m e =>
    have hlen := padZeros_length_ge (e + 1) (natChars m.natAbs)
    set ds := padZeros (e + 1) (natChars m.natAbs) with hds
    by_cases h : m < 0
    · refine ⟨'-', ds.take (ds.length - e) ++ '.' :: ds.drop (ds.length - e),
        ?_, by decide⟩
      simp [serVal, floatChars, h, ← hds]
    · have hne : ds ≠ [] := by
        intro hnil
        rw [hnil] at hlen
        simp at hlen
      obtain ⟨c, t, hct⟩ := List.exists_cons_of_ne_nil hne
      have htake : ds.take (ds.length - e) = c :: t.take (ds.length - e - 1) := by
        have hK : ds.length - e = (ds.length - e - 1) + 1 := by omega
        rw [hK, hct, List.take_succ_cons]
        simp
      refine ⟨c, t.take (ds.length - e - 1) ++ '.' :: ds.drop (ds.length - e),
        ?_, ?_⟩
      · simp only [serVal, floatChars, if_neg h, List.nil_append, ← hds]
        rw [htake]
        simp
      · have hcd : c.isDigit = true := by
          refine padZeros_digits (e + 1) (natChars m.natAbs)
            (natChars_digits _) c ?_
          rw [← hds, hct]
          exact List.mem_cons_self c t
        exact ⟨digit_not_ws c hcd,
          (digit_dispatch c hcd).2.2.2.2.2.2.2.2.2.1⟩
  | jstr s =>
    refine ⟨'"', escChars s ++ ['"'], ?_, by decide⟩
    simp [serVal]
  | jarr l =>
    cases l with
    | nil => exact ⟨'[', [']'], by simp [serVal], by decide⟩
    | cons x xs =>
      refine ⟨'[', '\n' :: serItemsA lvl x xs, ?_, by decide⟩
      simp [serVal]
  | jobj fs =>
    cases fs with
    | nil => exact ⟨lbr, [rbr], by simp [serVal], by decide⟩
    | cons f fs =>
      obtain ⟨k, v⟩ := f
      refine ⟨lbr, '\n' :: serFieldsA lvl k v fs, ?_, by decide⟩
      simp [serVal]

theorem skipWs_serVal (lvl : Nat) (v : JValue) (rest : List Char) :
    skipWs (serVal lvl v ++ rest) = serVal lvl v ++ rest := by
  obtain ⟨c, t, hct, hws, _⟩ := serVal_head lvl v
  rw [hct, List.cons_append, skipWs_head_nonws c _ hws]

/-- An input that starts with none of the structural openers is parsed as a
number. -/
theorem parseValF_to_number (fuel : Nat) (c : Char) (r : List Char)
    (hws : isWsChar c = false) (h1 : c ≠ '[') (h2 : c ≠ lbr) (h3 : c ≠ '"')
    (h4 : c ≠ 'n') (h5 : c ≠ 't') (h6 : c ≠ 'f') :
    parseValF (fuel + 1) (c :: r) = parseNumber (c :: r) := by
  simp only [parseValF]
  rw [skipWs_head_nonws c r hws]
  simp only [if_neg h1, if_neg h2, if_neg h3, if_neg h4, if_neg h5, if_neg h6]

theorem parseNumber_intChars (n : Int) (rest : List Char) (h : stopOk rest) :
    parseNumber (intChars n ++ rest) = some (.jint n, rest) := by
  have hd : ∀ c ∈ natChars n.natAbs, c.isDigit = true := natChars_digits _
  obtain ⟨c₀, t₀, hct⟩ :=
    List.exists_cons_of_ne_nil (natChars_ne_nil n.natAbs)
  have hspan : digitSpan (natChars n.natAbs ++ rest) =
      (natChars n.natAbs, rest) :=
    digitSpan_append _ rest hd (digitSpan_stop rest h)
  have hval : digitsVal (natChars n.natAbs) = n.natAbs := digitsVal_natChars _
  have hnnil : ¬ natChars n.natAbs = [] := natChars_ne_nil n.natAbs
  by_cases hn : n < 0
  · have hsgnval : -((n.natAbs : Nat) : Int) = n := by omega
    simp only [intChars, if_pos hn, List.cons_append, parseNumber, if_true]
    simp only [hspan, if_neg hnnil]
    cases rest with
    | nil => simp [hval, condNeg, abs_of_neg hn]
    | cons d t =>
      simp only [if_neg (h d t rfl).2]
      simp [hval, condNeg, abs_of_neg hn]
  · have hsgnval : ((n.natAbs : Nat) : Int) = n := by omega
    have hc₀d : c₀.isDigit = true := hd c₀ (hct ▸ List.mem_cons_self c₀ t₀)
    simp only [intChars, if_neg hn]
    rw [hct, List.cons_append]
    simp only [parseNumber, if_neg (digit_dispatch c₀ hc₀d).2.2.2.2.2.2.1]
    rw [← List.cons_append, ← hct]
    simp only [hspan, if_neg hnnil]
    cases rest with
    | nil => simp [hval, condNeg, hsgnval]
    | cons d t =>
      simp only [if_neg (h d t rfl).2]
      simp [hval, condNeg, hsgnval]

theorem parseNumber_floatChars (m : Int) (e : Nat) (he : e ≠ 0)
    (rest : List Char) (h : stopOk rest) :
    parseNumber (floatChars m e ++ rest) = some (.jfloat m e, rest) := by
  have hlen := padZeros_length_ge (e + 1) (natChars m.natAbs)
  have hdig : ∀ c ∈ padZeros (e + 1) (natChars m.natAbs), c.isDigit = true :=
    padZeros_digits _ _ (natChars_digits _)
  set ds := padZeros (e + 1) (natChars m.natAbs) with hds
  set tk := ds.take (ds.length - e) with htk
  set dr := ds.drop (ds.length - e) with hdr
  have htd : tk ++ dr = ds := List.take_append_drop _ _
  have htklen : tk.length = ds.length - e := by
    rw [htk, List.length_take]
    omega
  have hdrlen : dr.length = e := by
    rw [hdr, List.length_drop]
    omega
  have htknil : ¬ tk = [] := by
    intro hh
    rw [hh] at htklen
    simp at htklen
    omega
  have hdrnil : ¬ dr = [] := by
    intro hh
    rw [hh] at hdrlen
    exact he hdrlen.symm
  have hdig_tk : ∀ c ∈ tk, c.isDigit = true :=
    fun c hc => hdig c (List.take_subset _ _ hc)
  have hdig_dr : ∀ c ∈ dr, c.isDigit = true :=
    fun c hc => hdig c (List.drop_subset _ _ hc)
  have hdot : ('.').isDigit = false := by decide
  have hspan1 : digitSpan (tk ++ ('.' :: (dr ++ rest))) =
      (tk, '.' :: (dr ++ rest)) :=
    digitSpan_append tk _ hdig_tk (by simp [digitSpan, hdot])
  have hspan2 : digitSpan (dr ++ rest) = (dr, rest) :=
    digitSpan_append dr rest hdig_dr (digitSpan_stop rest h)
  have hval : digitsVal (tk ++ dr) = m.natAbs := by
    rw [htd, hds, digitsVal_padZeros, digitsVal_natChars]
  have hfc : floatChars m e ++ rest =
      (if m < 0 then ['-'] else []) ++ (tk ++ ('.' :: (dr ++ rest))) := by
    simp [floatChars, ← hds, ← htk, ← hdr, List.append_assoc]
  rw [hfc]
  by_cases hm : m < 0
  · rw [if_pos hm]
    simp only [List.singleton_append, List.cons_append, parseNumber, if_true]
    simp [hspan1, htknil, hspan2, hdrnil, hval, hdrlen, condNeg,
      abs_of_neg hm]
  · rw [if_neg hm]
    simp only [List.nil_append]
    obtain ⟨c₀, t₀, hct⟩ := List.exists_cons_of_ne_nil htknil
    have hc₀d : c₀.isDigit = true :=
      hdig_tk c₀ (hct ▸ List.mem_cons_self c₀ t₀)
    rw [hct, List.cons_append]
    simp only [parseNumber, if_neg (digit_dispatch c₀ hc₀d).2.2.2.2.2.2.1]
    rw [← List.cons_append, ← hct]
    simp [hspan1, htknil, hspan2, hdrnil, hval, hdrlen, condNeg,
      abs_of_nonneg (not_lt.mp hm)]

theorem stopOk_nil : stopOk [] := fun _ _ h => List.noConfusion h

theorem stopOk_cons (c : Char) (t : List Char) (h1 : c.isDigit = false)
    (h2 : c ≠ '.') : stopOk (c :: t) := by
  intro c' t' h
  injection h with h₁ h₂
  subst h₁
  exact ⟨h1, h2⟩

theorem nodes_pos : ∀ v : JValue, 1 ≤ nodes v := by
  intro v
  cases v <;> simp [nodes]

mutual

theorem nodes_le_len : (lvl : Nat) → (v : JValue) →
    nodes v ≤ (serVal lvl v).length
  | _, .jnull => by simp [nodes, serVal]
  | _, .jbool true => by simp [nodes, serVal]
  | _, .jbool false => by simp [nodes, serVal]
  | _, .jint n => by
    simp only [nodes, serVal, intChars]
    by_cases h : n < 0
    · simp [h]
    · simp only [if_neg h]
      cases hc : natChars n.natAbs with
      | nil => exact absurd hc (natChars_ne_nil n.natAbs)
      | cons a t => simp [hc]
  | _, .jfloat m e => by
    by_cases h : m < 0 <;>
      simp [nodes, serVal, floatChars, h, List.length_append] <;> omega
  | _, .jstr s => by simp [nodes, serVal]
  | _, .jarr [] => by simp [nodes, nodesList, serVal]
  | lvl, .jarr (x :: xs) => by
    have h := nodesList_le_len lvl x xs
    simp only [nodes, serVal, List.length_cons]
    omega
  | _, .jobj [] => by simp [nodes, nodesFields, serVal]
  | lvl, .jobj ((k, v) :: fs) => by
    have h := nodesFields_le_len lvl k v fs
    simp only [nodes, serVal, List.length_cons]
    omega
termination_by lvl v => sizeOf v

theorem nodesList_le_len : (lvl : Nat) → (x : JValue) → (xs : List JValue) →
    nodesList (x :: xs) ≤ (serItemsA lvl x xs).length
  | lvl, x, [] => by
    have h := nodes_le_len (lvl + 4) x
    simp only [serItemsA, nodesList, List.length_append, List.length_cons,
      pad, List.length_replicate]
    omega
  | lvl, x, y :: ys => by
    have h1 := nodes_le_len (lvl + 4) x
    have h2 := nodesList_le_len lvl y ys
    simp only [nodesList] at h2
    simp only [serItemsA, nodesList, List.length_append, List.length_cons,
      pad, List.length_replicate]
    omega
termination_by lvl x xs => 1 + sizeOf x + sizeOf xs

theorem nodesFields_le_len : (lvl : Nat) → (k : List Char) → (v : JValue) →
    (fs : List JField) →
    nodesFields ((k, v) :: fs) ≤ (serFieldsA lvl k v fs).length
  | lvl, k, v, [] => by
    have h := nodes_le_len (lvl + 4) v
    simp only [serFieldsA, nodesFields, List.length_append, List.length_cons,
      pad, List.length_replicate]
    omega
  | lvl, k, v, (k₂, v₂) :: gs => by
    have h1 := nodes_le_len (lvl + 4) v
    have h2 := nodesFields_le_len lvl k₂ v₂ gs
    simp only [nodesFields] at h2
    simp only [serFieldsA, nodesFields, List.length_append, List.length_cons,
      pad, List.length_replicate]
    omega
termination_by lvl k v fs => 1 + sizeOf v + sizeOf fs

end

theorem wsRun_pad (k : Nat) : wsRun (pad k) := by
  intro c hc
  rw [pad] at hc
  rw [List.eq_of_mem_replicate hc]
  decide

theorem wsRun_cons (c : Char) (h : isWsChar c = true) (l : List Char)
    (hl : wsRun l) : wsRun (c :: l) := by
  intro c' hc'
  rcases List.mem_cons.mp hc' with rfl | hh
  · exact h
  · exact hl c' hh

theorem wsRun_nil : wsRun [] := fun c hc => absurd hc (List.not_mem_nil c)

theorem wsRun_append (a b : List Char) (ha : wsRun a) (hb : wsRun b) :
    wsRun (a ++ b) := by
  intro c hc
  rcases List.mem_append.mp hc with h | h
  · exact ha c h
  · exact hb c h

theorem wsNl : wsRun ['\n'] :=
  wsRun_cons '\n' (by decide) [] wsRun_nil

theorem wsSp : wsRun [' '] :=
  wsRun_cons ' ' (by decide) [] wsRun_nil

theorem parseValF_wsPre (fuel : Nat) (pre s : List Char) (hpre : wsRun pre) :
    parseValF (fuel + 1) (pre ++ s) = parseValF (fuel + 1) s := by
  simp only [parseValF]
  rw [skipWs_wsRun_append pre hpre]

theorem serItemsA_shape (lvl : Nat) (x : JValue) (xs : List JValue) :
    ∃ c T, serItemsA lvl x xs = pad (lvl + 4) ++ (c :: T) ∧
      isWsChar c = false ∧ c ≠ ']' := by
  obtain ⟨c₁, t₁, hct₁, hws₁, hne₁⟩ := serVal_head (lvl + 4) x
  cases xs with
  | nil =>
    refine ⟨c₁, t₁ ++ ('\n' :: (pad lvl ++ [']'])), ?_, hws₁, hne₁⟩
    simp only [serItemsA]
    rw [hct₁]
    simp
  | cons y ys =>
    refine ⟨c₁, t₁ ++ (',' :: '\n' :: serItemsA lvl y ys), ?_, hws₁, hne₁⟩
    simp only [serItemsA]
    rw [hct₁]
    simp

theorem serFieldsA_shape (lvl : Nat) (k : List Char) (v : JValue)
    (fs : List JField) :
    ∃ T, serFieldsA lvl k v fs = pad (lvl + 4) ++ ('"' :: T) := by
  cases fs with
  | nil =>
    refine ⟨(escChars k ++ ['"']) ++ (':' :: ' ' :: (serVal (lvl + 4) v ++
      ('\n' :: (pad lvl ++ [rbr])))), ?_⟩
    simp only [serFieldsA]
    simp
  | cons g gs =>
    obtain ⟨k₂, v₂⟩ := g
    refine ⟨(escChars k ++ ['"']) ++ (':' :: ' ' :: (serVal (lvl + 4) v ++
      (',' :: '\n' :: serFieldsA lvl k₂ v₂ gs))), ?_⟩
    simp only [serFieldsA]
    simp

theorem skipWs_nl_pad (k : Nat) (c : Char) (hc : isWsChar c = false)
    (T rest : List Char) :
    skipWs ('\n' :: ((pad k ++ (c :: T)) ++ rest)) = c :: (T ++ rest) := by
  rw [show ('\n' :: ((pad k ++ (c :: T)) ++ rest)) =
    (('\n' :: pad k) ++ (c :: (T ++ rest))) by simp]
  rw [skipWs_wsRun_append _ (wsRun_cons '\n' (by decide) _ (wsRun_pad _))]
  exact skipWs_head_nonws c _ hc

theorem numHead (c : Char) (h : c = '-' ∨ c.isDigit = true) :
    isWsChar c = false ∧ c ≠ '[' ∧ c ≠ lbr ∧ c ≠ '"' ∧ c ≠ 'n' ∧
      c ≠ 't' ∧ c ≠ 'f' := by
  rcases h with rfl | h
  · exact ⟨by decide, by decide, by decide, by decide, by decide, by decide,
      by decide⟩
  · exact ⟨digit_not_ws c h, (digit_dispatch c h).1, (digit_dispatch c h).2.1,
      (digit_dispatch c h).2.2.1, (digit_dispatch c h).2.2.2.1,
      (digit_dispatch c h).2.2.2.2.1, (digit_dispatch c h).2.2.2.2.2.1⟩

theorem intChars_head (n : Int) :
    ∃ c t, intChars n = c :: t ∧ (c = '-' ∨ c.isDigit = true) := by
  by_cases h : n < 0
  · exact ⟨'-', natChars n.natAbs, by simp [intChars, h], Or.inl rfl⟩
  · obtain ⟨c, t, hct⟩ :=
      List.exists_cons_of_ne_nil (natChars_ne_nil n.natAbs)
    exact ⟨c, t, by simp [intChars, h, hct],
      Or.inr (natChars_digits _ c (hct ▸ List.mem_cons_self c t))⟩

theorem floatChars_head (m : Int) (e : Nat) :
    ∃ c t, floatChars m e = c :: t ∧ (c = '-' ∨ c.isDigit = true) := by
  have hlen := padZeros_length_ge (e + 1) (natChars m.natAbs)
  set ds := padZeros (e + 1) (natChars m.natAbs) with hds
  by_cases h : m < 0
  · refine ⟨'-', ds.take (ds.length - e) ++ '.' :: ds.drop (ds.length - e),
      ?_, Or.inl rfl⟩
    simp [floatChars, h, ← hds]
  · have hne : ds ≠ [] := by
      intro hnil
      rw [hnil] at hlen
      simp at hlen
    obtain ⟨c, t, hct⟩ := List.exists_cons_of_ne_nil hne
    have htake : ds.take (ds.length - e) =
        c :: t.take (ds.length - e - 1) := by
      have hK : ds.length - e = (ds.length - e - 1) + 1 := by omega
      rw [hK, hct, List.take_succ_cons]
      simp
    refine ⟨c, t.take (ds.length - e - 1) ++ '.' :: ds.drop (ds.length - e),
      ?_, Or.inr ?_⟩
    · simp only [floatChars, if_neg h, List.nil_append, ← hds]
      rw [htake]
      simp
    · refine padZeros_digits (e + 1) (natChars m.natAbs)
        (natChars_digits _) c ?_
      rw [← hds, hct]
      exact List.mem_cons_self c t

theorem parse_ser_roundtrip : ∀ fuel : Nat,
    (∀ v lvl pre rest, wfJ v = true → wsRun pre → stopOk rest →
      nodes v ≤ fuel →
      parseValF fuel (pre ++ (serVal lvl v ++ rest)) = some (v, rest)) ∧
    (∀ x xs lvl pre rest, wfJ x = true → wfItems xs = true → wsRun pre →
      stopOk rest → nodesList (x :: xs) ≤ fuel →
      parseItemsF fuel (pre ++ (serItemsA lvl x xs ++ rest)) =
        some (x :: xs, rest)) ∧
    (∀ k v fs lvl pre rest, wfJ v = true → wfFieldList fs = true →
      wsRun pre → stopOk rest → nodesFields ((k, v) :: fs) ≤ fuel →
      parseFieldsF fuel (pre ++ (serFieldsA lvl k v fs ++ rest)) =
        some ((k, v) :: fs, rest)) := by
  intro fuel
  induction fuel with
  | zero =>
    refine ⟨?_, ?_, ?_⟩
    · intro v _ _ _ _ _ _ hn
      have := nodes_pos v
      omega
    · intro x xs _ _ _ _ _ _ _ hn
      simp only [nodesList] at hn
      have := nodes_pos x
      omega
    · intro k v fs _ _ _ _ _ _ _ hn
      simp only [nodesFields] at hn
      have := nodes_pos v
      omega
  | succ fuel ih =>
    obtain ⟨ihV, ihI, ihF⟩ := ih
    refine ⟨?_, ?_, ?_⟩
    · intro v lvl pre rest hw hpre hrest hn
      cases v with
      | jnull =>
        simp only [serVal]
        rw [parseValF_wsPre fuel pre _ hpre]
        rw [show ((['n', 'u', 'l', 'l'] : List Char) ++ rest) =
          'n' :: ('u' :: 'l' :: 'l' :: rest) by simp]
        simp only [parseValF]
        rw [skipWs_head_nonws 'n' _ (by decide)]
        have d1 : ¬ (('n' : Char) = '[') := by decide
        have d2 : ¬ (('n' : Char) = lbr) := by decide
        have d3 : ¬ (('n' : Char) = '"') := by decide
        simp [d1, d2, d3]
      | jbool b =>
        cases b with
        | true =>
          simp only [serVal]
          rw [parseValF_wsPre fuel pre _ hpre]
          rw [show ((['t', 'r', 'u', 'e'] : List Char) ++ rest) =
            't' :: ('r' :: 'u' :: 'e' :: rest) by simp]
          simp only [parseValF]
          rw [skipWs_head_nonws 't' _ (by decide)]
          have d1 : ¬ (('t' : Char) = '[') := by decide
          have d2 : ¬ (('t' : Char) = lbr) := by decide
          have d3 : ¬ (('t' : Char) = '"') := by decide
          have d4 : ¬ (('t' : Char) = 'n') := by decide
          simp [d1, d2, d3, d4]
        | false =>
          simp only [serVal]
          rw [parseValF_wsPre fuel pre _ hpre]
          rw [show ((['f', 'a', 'l', 's', 'e'] : List Char) ++ rest) =
            'f' :: ('a' :: 'l' :: 's' :: 'e' :: rest) by simp]
          simp only [parseValF]
          rw [skipWs_head_nonws 'f' _ (by decide)]
          have d1 : ¬ (('f' : Char) = '[') := by decide
          have d2 : ¬ (('f' : Char) = lbr) := by decide
          have d3 : ¬ (('f' : Char) = '"') := by decide
          have d4 : ¬ (('f' : Char) = 'n') := by decide
          have d5 : ¬ (('f' : Char) = 't') := by decide
          simp [d1, d2, d3, d4, d5]
      | jint n =>
        simp only [serVal]
        rw [parseValF_wsPre fuel pre _ hpre]
        obtain ⟨c₀, t₀, hct, hcd⟩ := intChars_head n
        have h7 := numHead c₀ hcd
        have hic : intChars n ++ rest = c₀ :: (t₀ ++ rest) := by
          rw [hct]
          rfl
        rw [hic, parseValF_to_number fuel c₀ _ h7.1 h7.2.1 h7.2.2.1
          h7.2.2.2.1 h7.2.2.2.2.1 h7.2.2.2.2.2.1 h7.2.2.2.2.2.2, ← hic]
        exact parseNumber_intChars n rest hrest
      | jfloat m e =>
        have he : e ≠ 0 := by
          simp only [wfJ] at hw
          simpa using hw
        simp only [serVal]
        rw [parseValF_wsPre fuel pre _ hpre]
        obtain ⟨c₀, t₀, hct, hcd⟩ := floatChars_head m e
        have h7 := numHead c₀ hcd
        have hic : floatChars m e ++ rest = c₀ :: (t₀ ++ rest) := by
          rw [hct]
          rfl
        rw [hic, parseValF_to_number fuel c₀ _ h7.1 h7.2.1 h7.2.2.1
          h7.2.2.2.1 h7.2.2.2.2.1 h7.2.2.2.2.2.1 h7.2.2.2.2.2.2, ← hic]
        exact parseNumber_floatChars m e he rest hrest
      | jstr s =>
        simp only [serVal]
        rw [parseValF_wsPre fuel pre _ hpre]
        rw [List.cons_append]
        simp only [parseValF]
        rw [skipWs_head_nonws '"' _ (by decide)]
        rw [show ((escChars s ++ ['"']) ++ rest) =
          escChars s ++ ('"' :: rest) by simp]
        have d1 : ¬ (('"' : Char) = '[') := by decide
        have d2 : ¬ (('"' : Char) = lbr) := by decide
        simp [d1, d2, parseStrBody_escChars]
      | jarr l =>
        cases l with
        | nil =>
          simp only [serVal]
          rw [parseValF_wsPre fuel pre _ hpre]
          rw [show ((['[', ']'] : List Char) ++ rest) =
            '[' :: (']' :: rest) by simp]
          simp only [parseValF]
          rw [skipWs_head_nonws '[' _ (by decide)]
          simp [skipWs_head_nonws ']' rest (by decide)]
        | cons x xs =>
          have hw₂ : wfJ x = true ∧ wfItems xs = true := by
            simp only [wfJ, wfItems, Bool.and_eq_true] at hw
            exact hw
          have hb : nodesList (x :: xs) ≤ fuel := by
            simp only [nodes] at hn
            omega
          obtain ⟨c₁, T, hshape, hws₁, hne₁⟩ := serItemsA_shape lvl x xs
          have hsk : skipWs ('\n' :: (serItemsA lvl x xs ++ rest)) =
              c₁ :: (T ++ rest) := by
            rw [hshape]
            exact skipWs_nl_pad (lvl + 4) c₁ hws₁ T rest
          have hitems := ihI x xs lvl ['\n'] rest hw₂.1 hw₂.2 wsNl hrest hb
          rw [List.singleton_append] at hitems
          simp only [serVal]
          rw [parseValF_wsPre fuel pre _ hpre]
          rw [List.cons_append, List.cons_append]
          simp only [parseValF]
          rw [skipWs_head_nonws '[' _ (by decide)]
          simp [hsk, hitems]
          split
          · rename_i heq
            injection heq with h₁ h₂
            exact absurd h₁ hne₁
          · rfl
      | jobj l =>
        cases l with
        | nil =>
          simp only [serVal]
          rw [parseValF_wsPre fuel pre _ hpre]
          rw [show (([lbr, rbr] : List Char) ++ rest) =
            lbr :: (rbr :: rest) by simp]
          simp only [parseValF]
          rw [skipWs_head_nonws lbr _ (by decide)]
          have e1 : ¬ (lbr = '[') := by decide
          simp [e1, skipWs_head_nonws rbr rest (by decide)]
        | cons f gs =>
          obtain ⟨k, v⟩ := f
          have hw₂ : (wfStr k = true ∧ wfJ v = true) ∧
              wfFieldList gs = true := by
            simp only [wfJ, wfFieldList, Bool.and_eq_true] at hw
            exact hw
          have hb : nodesFields ((k, v) :: gs) ≤ fuel := by
            simp only [nodes] at hn
            omega
          obtain ⟨T, hshape⟩ := serFieldsA_shape lvl k v gs
          have hsk : skipWs ('\n' :: (serFieldsA lvl k v gs ++ rest)) =
              '"' :: (T ++ rest) := by
            rw [hshape]
            exact skipWs_nl_pad (lvl + 4) '"' (by decide) T rest
          have hflds := ihF k v gs lvl ['\n'] rest hw₂.1.2 hw₂.2 wsNl
            hrest hb
          rw [List.singleton_append] at hflds
          simp only [serVal]
          rw [parseValF_wsPre fuel pre _ hpre]
          rw [List.cons_append, List.cons_append]
          simp only [parseValF]
          rw [skipWs_head_nonws lbr _ (by decide)]
          have e1 : ¬ (lbr = '[') := by decide
          have e2 : ¬ (('"' : Char) = rbr) := by decide
          simp [e1, hsk, e2, hflds]
    · intro x xs lvl pre rest hwx hwxs hpre hrest hb
      simp only [nodesList] at hb
      have hbx : nodes x ≤ fuel := by omega
      cases xs with
      | nil =>
        have hstop : stopOk (('\n' :: (pad lvl ++ [']'])) ++ rest) :=
          stopOk_cons '\n' _ (by decide) (by decide)
        have hv := ihV x (lvl + 4) (pre ++ pad (lvl + 4))
          (('\n' :: (pad lvl ++ [']'])) ++ rest) hwx
          (wsRun_append _ _ hpre (wsRun_pad _)) hstop hbx
        have hsk2 : skipWs ((('\n' :: (pad lvl ++ [']'])) ++ rest)) =
            ']' :: rest := by
          rw [show ((('\n' :: (pad lvl ++ [']'])) ++ rest)) =
            (('\n' :: pad lvl) ++ (']' :: rest)) by simp]
          rw [skipWs_wsRun_append _ (wsRun_cons '\n' (by decide) _
            (wsRun_pad _))]
          exact skipWs_head_nonws ']' _ (by decide)
        simp only [List.append_assoc, List.cons_append, List.singleton_append,
          List.nil_append] at hv hsk2
        simp only [parseItemsF, serItemsA]
        simp only [List.append_assoc, List.cons_append, List.singleton_append,
          List.nil_append]
        simp [hv, hsk2]
      | cons y ys =>
        have hw₂ : wfJ y = true ∧ wfItems ys = true := by
          simp only [wfItems, Bool.and_eq_true] at hwxs
          exact hwxs
        have hby : nodesList (y :: ys) ≤ fuel := by
          have := nodes_pos x
          omega
        have hstop : stopOk ((',' :: '\n' :: serItemsA lvl y ys) ++ rest) :=
          stopOk_cons ',' _ (by decide) (by decide)
        have hv := ihV x (lvl + 4) (pre ++ pad (lvl + 4))
          ((',' :: '\n' :: serItemsA lvl y ys) ++ rest) hwx
          (wsRun_append _ _ hpre (wsRun_pad _)) hstop hbx
        have hsk2 : skipWs (((',' :: '\n' :: serItemsA lvl y ys) ++ rest)) =
            ',' :: ('\n' :: (serItemsA lvl y ys ++ rest)) := by
          rw [show (((',' :: '\n' :: serItemsA lvl y ys) ++ rest)) =
            (',' :: ('\n' :: (serItemsA lvl y ys ++ rest))) by simp]
          exact skipWs_head_nonws ',' _ (by decide)
        have hrec := ihI y ys lvl ['\n'] rest hw₂.1 hw₂.2 wsNl hrest hby
        rw [List.singleton_append] at hrec
        simp only [List.append_assoc, List.cons_append, List.singleton_append,
          List.nil_append] at hv hsk2 hrec
        simp only [parseItemsF, serItemsA]
        simp only [List.append_assoc, List.cons_append, List.singleton_append,
          List.nil_append]
        simp [hv, hsk2, hrec]
    · intro k v fs lvl pre rest hwv hwfs hpre hrest hb
      simp only [nodesFields] at hb
      have hbv : nodes v ≤ fuel := by omega
      cases fs with
      | nil =>
        have hstop : stopOk (('\n' :: (pad lvl ++ [rbr])) ++ rest) :=
          stopOk_cons '\n' _ (by decide) (by decide)
        have hv := ihV v (lvl + 4) [' ']
          (('\n' :: (pad lvl ++ [rbr])) ++ rest) hwv wsSp hstop hbv
        rw [List.singleton_append] at hv
        have hsk3 : skipWs ((('\n' :: (pad lvl ++ [rbr])) ++ rest)) =
            rbr :: rest := by
          rw [show ((('\n' :: (pad lvl ++ [rbr])) ++ rest)) =
            (('\n' :: pad lvl) ++ (rbr :: rest)) by simp]
          rw [skipWs_wsRun_append _ (wsRun_cons '\n' (by decide) _
            (wsRun_pad _))]
          exact skipWs_head_nonws rbr _ (by decide)
        have hsk4 : skipWs (':' :: ' ' :: (serVal (lvl + 4) v ++
            (('\n' :: (pad lvl ++ [rbr])) ++ rest))) =
            ':' :: (' ' :: (serVal (lvl + 4) v ++
              (('\n' :: (pad lvl ++ [rbr])) ++ rest))) :=
          skipWs_head_nonws ':' _ (by decide)
        simp only [List.append_assoc, List.cons_append, List.singleton_append,
          List.nil_append] at hv hsk3 hsk4
        simp only [parseFieldsF, serFieldsA]
        simp only [List.append_assoc, List.cons_append, List.singleton_append,
          List.nil_append]
        rw [skipWs_wsRun_append _ hpre]
        rw [skipWs_wsRun_append _ (wsRun_pad (lvl + 4))]
        rw [skipWs_head_nonws '"' _ (by decide)]
        simp [parseStrBody_escChars, hsk4, hv, hsk3]
        split
        · rename_i heq
          injection heq with h₁ h₂
          exact absurd h₁ (by decide)
        · rename_i c₅ r₄ hne heq
          injection heq with h₁ h₂
          subst h₁
          subst h₂
          simp
        · rename_i heq
          exact List.noConfusion heq
      | cons g gs =>
        obtain ⟨k₂, v₂⟩ := g
        have hw₂ : (wfStr k₂ = true ∧ wfJ v₂ = true) ∧
            wfFieldList gs = true := by
          simp only [wfFieldList, Bool.and_eq_true] at hwfs
          exact hwfs
        have hbg : nodesFields ((k₂, v₂) :: gs) ≤ fuel := by
          have := nodes_pos v
          omega
        have hstop : stopOk ((',' :: '\n' :: serFieldsA lvl k₂ v₂ gs) ++
            rest) := stopOk_cons ',' _ (by decide) (by decide)
        have hv := ihV v (lvl + 4) [' ']
          ((',' :: '\n' :: serFieldsA lvl k₂ v₂ gs) ++ rest) hwv wsSp
          hstop hbv
        rw [List.singleton_append] at hv
        have hsk3 : skipWs (((',' :: '\n' :: serFieldsA lvl k₂ v₂ gs) ++
            rest)) = ',' :: ('\n' :: (serFieldsA lvl k₂ v₂ gs ++ rest)) := by
          rw [show (((',' :: '\n' :: serFieldsA lvl k₂ v₂ gs) ++ rest)) =
            (',' :: ('\n' :: (serFieldsA lvl k₂ v₂ gs ++ rest))) by simp]
          exact skipWs_head_nonws ',' _ (by decide)
        have hsk4 : skipWs (':' :: ' ' :: (serVal (lvl + 4) v ++
            ((',' :: '\n' :: serFieldsA lvl k₂ v₂ gs) ++ rest))) =
            ':' :: (' ' :: (serVal (lvl + 4) v ++
              ((',' :: '\n' :: serFieldsA lvl k₂ v₂ gs) ++ rest))) :=
          skipWs_head_nonws ':' _ (by decide)
        have hrec := ihF k₂ v₂ gs lvl ['\n'] rest hw₂.1.2 hw₂.2 wsNl
          hrest hbg
        rw [List.singleton_append] at hrec
        simp only [List.append_assoc, List.cons_append, List.singleton_append,
          List.nil_append] at hv hsk3 hsk4 hrec
        simp only [parseFieldsF, serFieldsA]
        simp only [List.append_assoc, List.cons_append, List.singleton_append,
          List.nil_append]
        rw [skipWs_wsRun_append _ hpre]
        rw [skipWs_wsRun_append _ (wsRun_pad (lvl + 4))]
        rw [skipWs_head_nonws '"' _ (by decide)]
        simp [parseStrBody_escChars, hsk4, hv, hsk3, hrec]

mutual

theorem DictEq_canon : (v : JValue) → DictEq (canon v) v
  | .jnull => by
    simp only [canon]
    exact .nullE
  | .jbool b => by
    simp only [canon]
    exact .boolE b
  | .jint n => by
    simp only [canon]
    exact .intE n
  | .jfloat m e => by
    simp only [canon]
    exact .floatE m e
  | .jstr str => by
    simp only [canon]
    exact .strE str
  | .jarr l => by
    simp only [canon]
    exact .arrE _ _ (DictEqList_canon l)
  | .jobj fs => by
    simp only [canon]
    exact .objE _ (canonFields fs) _ (sortFields_perm _)
      (DictEqFields_canon fs)
termination_by v => sizeOf v

theorem DictEqList_canon : (l : List JValue) → DictEqList (canonItems l) l
  | [] => by
    simp only [canonItems]
    exact .nilE
  | v :: vs => by
    simp only [canonItems]
    exact .consE _ _ _ _ (DictEq_canon v) (DictEqList_canon vs)
termination_by l => sizeOf l

theorem DictEqFields_canon :
    (fs : List JField) → DictEqFields (canonFields fs) fs
  | [] => by
    simp only [canonFields]
    exact .nilF
  | (k, v) :: fs => by
    simp only [canonFields]
    exact .consF _ _ _ _ _ (DictEq_canon v) (DictEqFields_canon fs)
termination_by fs => sizeOf fs

end

theorem wfFieldList_eq_all : ∀ l : List JField,
    wfFieldList l = l.all (fun f => wfStr f.1 && wfJ f.2) := by
  intro l
  induction l with
  | nil => simp [wfFieldList]
  | cons f fs ih =>
    obtain ⟨k, v⟩ := f
    simp [wfFieldList, List.all_cons, ih, Bool.and_assoc]

theorem wfFieldList_perm (l l' : List JField) (h : l.Perm l') :
    wfFieldList l = wfFieldList l' := by
  rw [wfFieldList_eq_all, wfFieldList_eq_all]
  have hiff : (l.all (fun f => wfStr f.1 && wfJ f.2) = true) ↔
      (l'.all (fun f => wfStr f.1 && wfJ f.2) = true) := by
    simp only [List.all_eq_true]
    constructor <;> intro hh x hx
    · exact hh x (h.symm.subset hx)
    · exact hh x (h.subset hx)
  by_cases hb : l.all (fun f => wfStr f.1 && wfJ f.2) = true
  · rw [hb, hiff.mp hb]
  · have hb' : ¬ l'.all (fun f => wfStr f.1 && wfJ f.2) = true :=
      fun hh => hb (hiff.mpr hh)
    rw [Bool.not_eq_true] at hb hb'
    rw [hb, hb']

mutual

theorem wfJ_canon : (v : JValue) → wfJ v = true → wfJ (canon v) = true
  | .jnull, h => by simpa [canon] using h
  | .jbool b, h => by simpa [canon] using h
  | .jint n, h => by simpa [canon] using h
  | .jfloat m e, h => by simpa [canon] using h
  | .jstr str, h => by simpa [canon] using h
  | .jarr l, h => by
    simp only [canon, wfJ] at h ⊢
    exact wfItems_canon l h
  | .jobj fs, h => by
    simp only [canon, wfJ] at h ⊢
    rw [wfFieldList_perm _ _ (sortFields_perm (canonFields fs))]
    exact wfFieldList_canon fs h
termination_by v _ => sizeOf v

theorem wfItems_canon :
    (l : List JValue) → wfItems l = true → wfItems (canonItems l) = true
  | [], h => by simpa [canonItems] using h
  | v :: vs, h => by
    simp only [canonItems, wfItems, Bool.and_eq_true] at h ⊢
    exact ⟨wfJ_canon v h.1, wfItems_canon vs h.2⟩
termination_by l _ => sizeOf l

theorem wfFieldList_canon : (fs : List JField) → wfFieldList fs = true →
    wfFieldList (canonFields fs) = true
  | [], h => by simpa [canonFields] using h
  | (k, v) :: fs, h => by
    simp only [canonFields, wfFieldList, Bool.and_eq_true] at h ⊢
    exact ⟨⟨h.1.1, wfJ_canon v h.1.2⟩, wfFieldList_canon fs h.2⟩
termination_by fs _ => sizeOf fs

end

/-- C5: the notebooks write the configuration with `json.dump` and the file
content is exactly that serialization, so `json.load` of the written file
returns the configuration dictionary: the parse succeeds, yields the
key-sorted rendering `canon v` of the dictionary, and that value is equal
(as a Python dictionary, i.e. up to object key order) to the in-memory
dictionary `v`. -/
theorem json_dump_load_roundtrip (v : JValue) (hw : wfJ v = true) :
    parseJson (pyJsonDump v) = some (canon v) ∧ DictEq (canon v) v := by
  constructor
  · have hlen := nodes_le_len 0 (canon v)
    have hparse := (parse_ser_roundtrip ((serVal 0 (canon v)).length + 1)).1
      (canon v) 0 [] [] (wfJ_canon v hw) wsRun_nil stopOk_nil (by omega)
    rw [List.nil_append, List.append_nil] at hparse
    simp only [parseJson, pyJsonDump, hparse]
    simp [skipWs]
  · exact DictEq_canon v

theorem json_dump_load_roundtrip_w :
    wfJ (.jobj samp_configuration) = true ∧
      (parseJson (pyJsonDump (.jobj samp_configuration)) =
          some (canon (.jobj samp_configuration)) ∧
        DictEq (canon (.jobj samp_configuration))
          (.jobj samp_configuration)) :=
  ⟨by decide, json_dump_load_roundtrip (.jobj samp_configuration) (by decide)⟩
